import Mathlib

/-!
Verification of the Diglett DNS resolver core against its specification.

The Rust sources (src/buffer.rs, src/lib.rs, src/cache.rs, src/main.rs) are
shallowly embedded below: bytes are natural numbers (callers keep them < 256,
mirroring `u8`), buffers are lists of bytes with a cursor, fallible operations
return `Except Err _`, and the two sources of genuine nontermination in the
code (`read_qname` pointer chasing and `recursive_lookup`) are step-indexed
with fuel, `none` meaning that no bound on the number of steps suffices.
Network I/O performed by the resolution engine is abstracted as an oracle
mapping an upstream query to the decoded reply packet.
-/

namespace Diglett

/-- Error outcomes of the embedded code.  `bufferOverflow` models the
`eyre!("Buffer position exceeded ...")`-style errors the source returns;
`indexOutOfRange` models a Rust panic caused by an unchecked slice or index
(e.g. `&self.buf[pos..pos+len]` past the end, or `self.buf[pos] = val` with
`pos` out of bounds), which is not a returned error value; `labelTooLong`
models `eyre!("Length exceeds 63 characters")` in `write_qname`. -/
inductive Err where
  | bufferOverflow
  | indexOutOfRange
  | labelTooLong
  deriving DecidableEq, Repr

/-- The growable buffer of src/buffer.rs (`VecBuffer { buf: Vec<u8>, pos: usize }`). -/
structure VecBuffer where
  buf : List Nat
  pos : Nat
  deriving DecidableEq, Repr

/-- `VecBuffer::new()`. -/
def VecBuffer.new : VecBuffer := ⟨[], 0⟩

/-- `VecBuffer::read`: error if `pos >= buf.len()`, otherwise return the byte
at the cursor and advance. -/
def VecBuffer.read (b : VecBuffer) : Except Err (Nat × VecBuffer) :=
  if b.buf.length ≤ b.pos then .error .bufferOverflow
  else .ok (b.buf.getD b.pos 0, { b with pos := b.pos + 1 })

/-- `VecBuffer::get`: error if `pos >= buf.len()`. -/
def VecBuffer.get (b : VecBuffer) (pos : Nat) : Except Err Nat :=
  if b.buf.length ≤ pos then .error .bufferOverflow
  else .ok (b.buf.getD pos 0)

/-- `VecBuffer::get_range`: the source only checks `pos >= buf.len()` and then
slices `&self.buf[pos..pos+len]`; a range that starts in bounds but extends
past the end is an unchecked slice, i.e. a Rust panic (`indexOutOfRange`). -/
def VecBuffer.get_range (b : VecBuffer) (pos len : Nat) : Except Err (List Nat) :=
  if b.buf.length ≤ pos then .error .bufferOverflow
  else if b.buf.length < pos + len then .error .indexOutOfRange
  else .ok ((b.buf.drop pos).take len)

/-- `VecBuffer::set`: the source performs `self.buf[pos] = val` with no bounds
check at all, so an out-of-bounds position is a Rust index panic. -/
def VecBuffer.set (b : VecBuffer) (pos val : Nat) : Except Err VecBuffer :=
  if pos < b.buf.length then .ok { b with buf := b.buf.set pos val }
  else .error .indexOutOfRange

/-- `VecBuffer::seek`: error if the target is past `buf.len()`. -/
def VecBuffer.seek (b : VecBuffer) (pos : Nat) : Except Err VecBuffer :=
  if b.buf.length < pos then .error .bufferOverflow
  else .ok { b with pos := pos }

/-- `VecBuffer::step`. -/
def VecBuffer.step (b : VecBuffer) (steps : Nat) : Except Err VecBuffer :=
  if b.buf.length < b.pos + steps then .error .bufferOverflow
  else .ok { b with pos := b.pos + steps }

/-- `VecBuffer::write`: pushes onto the end of the vector (not at the cursor)
and increments `pos`; it can never fail. -/
def VecBuffer.write (b : VecBuffer) (val : Nat) : Except Err VecBuffer :=
  .ok { buf := b.buf ++ [val], pos := b.pos + 1 }

/-- The fixed 512-byte buffer of src/buffer.rs (`ArrayBuffer { buf: [u8; 512], pos }`).
The list `buf` is intended to have length 512; the bounds in the operations
are the literal 512 of the source. -/
structure ArrayBuffer where
  buf : List Nat
  pos : Nat
  deriving DecidableEq, Repr

/-- `ArrayBuffer::new()`. -/
def ArrayBuffer.new : ArrayBuffer := ⟨List.replicate 512 0, 0⟩

/-- `ArrayBuffer::read`. -/
def ArrayBuffer.read (b : ArrayBuffer) : Except Err (Nat × ArrayBuffer) :=
  if 512 ≤ b.pos then .error .bufferOverflow
  else .ok (b.buf.getD b.pos 0, { b with pos := b.pos + 1 })

/-- `ArrayBuffer::get`. -/
def ArrayBuffer.get (b : ArrayBuffer) (pos : Nat) : Except Err Nat :=
  if 512 ≤ pos then .error .bufferOverflow
  else .ok (b.buf.getD pos 0)

/-- `ArrayBuffer::get_range`: checks only `pos >= 512`, then slices
`&self.buf[pos..pos+len]` on the 512-byte array, which panics when
`pos + len > 512`. -/
def ArrayBuffer.get_range (b : ArrayBuffer) (pos len : Nat) : Except Err (List Nat) :=
  if 512 ≤ pos then .error .bufferOverflow
  else if 512 < pos + len then .error .indexOutOfRange
  else .ok ((b.buf.drop pos).take len)

/-- `ArrayBuffer::set`: unchecked `self.buf[pos] = val`; a position ≥ 512 is a
Rust index panic, not a returned error. -/
def ArrayBuffer.set (b : ArrayBuffer) (pos val : Nat) : Except Err ArrayBuffer :=
  if pos < 512 then .ok { b with buf := b.buf.set pos val }
  else .error .indexOutOfRange

/-- `ArrayBuffer::seek`. -/
def ArrayBuffer.seek (b : ArrayBuffer) (pos : Nat) : Except Err ArrayBuffer :=
  if 512 < pos then .error .bufferOverflow
  else .ok { b with pos := pos }

/-- `ArrayBuffer::step`. -/
def ArrayBuffer.step (b : ArrayBuffer) (steps : Nat) : Except Err ArrayBuffer :=
  if 512 < b.pos + steps then .error .bufferOverflow
  else .ok { b with pos := b.pos + steps }

/-- `ArrayBuffer::write`: error when the cursor is at or past 512. -/
def ArrayBuffer.write (b : ArrayBuffer) (val : Nat) : Except Err ArrayBuffer :=
  if 512 ≤ b.pos then .error .bufferOverflow
  else .ok { b with buf := b.buf.set b.pos val, pos := b.pos + 1 }

/-- Sequencing for step-indexed readers: propagate fuel exhaustion (`none`)
and errors, feed a success to the continuation. -/
def obind (x : Option (Except Err (α × VecBuffer)))
    (f : α → VecBuffer → Option (Except Err (β × VecBuffer))) :
    Option (Except Err (β × VecBuffer)) :=
  match x with
  | none => none
  | some (.error e) => some (.error e)
  | some (.ok (a, b)) => f a b

/-- Sequencing a plain fallible reader into a step-indexed continuation. -/
def ebind (x : Except Err (α × VecBuffer))
    (f : α → VecBuffer → Option (Except Err (β × VecBuffer))) :
    Option (Except Err (β × VecBuffer)) :=
  match x with
  | .error e => some (.error e)
  | .ok (a, b) => f a b

/-- Sequencing for writers (`?`-propagation of `Result<()>`). -/
def wbind (x : Except Err VecBuffer) (f : VecBuffer → Except Err VecBuffer) :
    Except Err VecBuffer :=
  match x with
  | .error e => .error e
  | .ok b => f b

/-- Sequencing for plain fallible readers (`?`-propagation). -/
def rbind (x : Except Err (α × VecBuffer))
    (f : α → VecBuffer → Except Err (β × VecBuffer)) :
    Except Err (β × VecBuffer) :=
  match x with
  | .error e => .error e
  | .ok (a, b) => f a b

/-- Byte-level rendering of the source's
`String::from_utf8_lossy(str_buf).to_lowercase()` applied to a label:
an ASCII uppercase byte becomes the corresponding lowercase byte.  On ASCII
data — which is all the data the definitions and theorems below ever feed it —
this agrees byte for byte with the source; multi-byte UTF-8 replacement is
outside what any claim exercises. -/
def lowerByte (b : Nat) : Nat := if 65 ≤ b ∧ b ≤ 90 then b + 32 else b

/-- Lowercasing a whole label, byte by byte. -/
def lowerBytes (l : List Nat) : List Nat := l.map lowerByte

/-- The loop body of `PacketBufferTrait::read_qname` (src/buffer.rs lines
38-75), step-indexed.  Arguments: the underlying byte list, the fuel, the
committed buffer cursor `bpos` (only meaningful once `jump` is set, where the
source has already executed `self.seek(pos + 2)`), the inner position `pos`,
the `jump` latch, the delimiter latch (the source's `delim` switching from ""
to "."), and the accumulated output bytes.  `none` means the loop has not
finished within `fuel` iterations; since the source has **no hop cap**, a
pointer cycle makes it return `none` for every fuel.  Returns the decoded
name and the final value of the buffer cursor. -/
def read_qname_go (B : List Nat) :
    Nat → Nat → Nat → Bool → Bool → List Nat → Option (Except Err (List Nat × Nat))
  | 0, _, _, _, _, _ => none
  | fuel + 1, bpos, pos, jump, delim, acc =>
    if B.length ≤ pos then some (.error .bufferOverflow)
    else
      let len := B.getD pos 0
      if len &&& 0xC0 = 0xC0 then
        if jump = false ∧ B.length < pos + 2 then some (.error .bufferOverflow)
        else
          let bpos' := if jump then bpos else pos + 2
          if B.length ≤ pos + 1 then some (.error .bufferOverflow)
          else
            let byte2 := B.getD (pos + 1) 0
            let offset := ((len ^^^ 0xC0) <<< 8) ||| byte2
            read_qname_go B fuel bpos' offset true delim acc
      else
        if len = 0 then
          if jump then some (.ok (acc, bpos))
          else if B.length < pos + 1 then some (.error .bufferOverflow)
          else some (.ok (acc, pos + 1))
        else
          let acc' := if delim then acc ++ [46] else acc
          if B.length ≤ pos + 1 then some (.error .bufferOverflow)
          else if B.length < pos + 1 + len then some (.error .indexOutOfRange)
          else
            read_qname_go B fuel bpos (pos + 1 + len) jump true
              (acc' ++ lowerBytes ((B.drop (pos + 1)).take len))

/-- `read_qname` on a `VecBuffer`: starts at the cursor with a fresh output
(every caller in src/lib.rs passes a fresh `String`), `jump = false` and the
empty delimiter.  Returns the decoded name (as the byte list of the produced
string, labels joined by '.' = byte 46) and the buffer with its final cursor. -/
def read_qname (fuel : Nat) (b : VecBuffer) : Option (Except Err (List Nat × VecBuffer)) :=
  match read_qname_go b.buf fuel b.pos b.pos false false [] with
  | none => none
  | some (.error e) => some (.error e)
  | some (.ok (name, p)) => some (.ok (name, { b with pos := p }))

/-- Rust's `str::split('.')` on the byte representation of a name: splitting
on byte 46; the empty string yields one empty piece. -/
def splitDot : List Nat → List (List Nat)
  | [] => [[]]
  | b :: rest =>
    if b = 46 then [] :: splitDot rest
    else
      match splitDot rest with
      | [] => [[b]]
      | l :: ls => (b :: l) :: ls

/-- Joining labels with '.' (byte 46), the inverse of `splitDot`. -/
def joinDot : List (List Nat) → List Nat
  | [] => []
  | l :: ls => l ++ ls.flatMap (fun x => 46 :: x)

/-- `for byte in label.bytes() { self.write(byte)?; }` -/
def write_bytes : List Nat → VecBuffer → Except Err VecBuffer
  | [], b => .ok b
  | x :: xs, b => wbind (b.write x) (write_bytes xs)

/-- The label loop of `write_qname`: for each piece of `qname.split('.')`,
fail with `labelTooLong` if it exceeds 63 bytes, else write the length byte
followed by the label bytes. -/
def write_labels : List (List Nat) → VecBuffer → Except Err VecBuffer
  | [], b => .ok b
  | l :: ls, b =>
    if 63 < l.length then .error .labelTooLong
    else wbind (b.write l.length) fun b => wbind (write_bytes l b) (write_labels ls)

/-- `PacketBufferTrait::write_qname` on a `VecBuffer`: length-prefixed labels
followed by a terminating zero byte; no compression is produced. -/
def write_qname (name : List Nat) (b : VecBuffer) : Except Err VecBuffer :=
  wbind (write_labels (splitDot name) b) fun b => b.write 0

/-- `read_u16`: two sequential byte reads combined big-endian
(`(read()? << 8) | read()?`). -/
def read_u16 (b : VecBuffer) : Except Err (Nat × VecBuffer) :=
  rbind b.read fun hi b =>
  rbind b.read fun lo b =>
  .ok ((hi <<< 8) ||| lo, b)

/-- `read_u32`: two sequential u16 reads combined big-endian. -/
def read_u32 (b : VecBuffer) : Except Err (Nat × VecBuffer) :=
  rbind (read_u16 b) fun hi b =>
  rbind (read_u16 b) fun lo b =>
  .ok ((hi <<< 16) ||| lo, b)

/-- `write_u16`: `write((val >> 8) as u8)` then `write((val & 0xFF) as u8)`;
the `as u8` casts are `% 256`. -/
def write_u16 (val : Nat) (b : VecBuffer) : Except Err VecBuffer :=
  wbind (b.write ((val >>> 8) % 256)) fun b => b.write ((val &&& 0xFF) % 256)

/-- `write_u32`: `write_u16((val >> 16) as u16)` then `write_u16(val & 0xFFFF)`. -/
def write_u32 (val : Nat) (b : VecBuffer) : Except Err VecBuffer :=
  wbind (write_u16 ((val >>> 16) % 65536) b) fun b => write_u16 ((val &&& 0xFFFF) % 65536) b

/-- `RCode` (src/lib.rs lines 8-15). -/
inductive RCode where
  | NOERROR
  | FORMERR
  | SERVFAIL
  | NXDOMAIN
  | NOTIMP
  | REFUSED
  deriving DecidableEq, Repr

/-- `RCode::from_num`: 1-5 map to the named codes, everything else to NOERROR. -/
def RCode.from_num (num : Nat) : RCode :=
  if num = 1 then .FORMERR
  else if num = 2 then .SERVFAIL
  else if num = 3 then .NXDOMAIN
  else if num = 4 then .NOTIMP
  else if num = 5 then .REFUSED
  else .NOERROR

/-- `self.res_code as u16`: the enum discriminant used when packing the flags
word in `DNSHeader::write`. -/
def RCode.to_num : RCode → Nat
  | .NOERROR => 0
  | .FORMERR => 1
  | .SERVFAIL => 2
  | .NXDOMAIN => 3
  | .NOTIMP => 4
  | .REFUSED => 5

/-- `DNSHeader` (src/lib.rs lines 31-46).  Field names follow the source. -/
structure DNSHeader where
  id : Nat
  query_response : Bool
  opcode : Nat
  auth_answer : Bool
  truncated_msg : Bool
  recur_desired : Bool
  recur_available : Bool
  z_res : Bool
  res_code : RCode
  q_count : Nat
  an_count : Nat
  ns_count : Nat
  ad_count : Nat
  deriving DecidableEq, Repr

/-- `DNSHeader::new()`. -/
def DNSHeader.new : DNSHeader :=
  ⟨0, false, 0, false, false, false, false, false, .NOERROR, 0, 0, 0, 0⟩

/-- `DNSHeader::read`: id, the packed flags word with its bit extractions
(src/lib.rs lines 67-83), then the four counts. -/
def DNSHeader.read (b : VecBuffer) : Except Err (DNSHeader × VecBuffer) :=
  rbind (read_u16 b) fun id b =>
  rbind (read_u16 b) fun flags b =>
  rbind (read_u16 b) fun qc b =>
  rbind (read_u16 b) fun an b =>
  rbind (read_u16 b) fun ns b =>
  rbind (read_u16 b) fun ad b =>
  .ok ({ id := id
       , query_response := decide (0 < flags &&& (1 <<< 15))
       , opcode := (flags >>> 11) &&& 0xF
       , auth_answer := decide (0 < flags &&& (1 <<< 10))
       , truncated_msg := decide (0 < flags &&& (1 <<< 9))
       , recur_desired := decide (0 < flags &&& (1 <<< 8))
       , recur_available := decide (0 < flags &&& (1 <<< 7))
       , z_res := decide (0 < flags &&& (7 <<< 4))
       , res_code := RCode.from_num (flags &&& 0xF)
       , q_count := qc, an_count := an, ns_count := ns, ad_count := ad }, b)

/-- The flags word packed by `DNSHeader::write` (src/lib.rs lines 87-96) as
a function of the individual fields.  The intermediate `u16` wrap-around of
the source does not change the two bytes `write_u16` emits, so the packing
is kept as a plain natural. -/
def packF (qr : Bool) (opc : Nat) (aa tc rd ra z : Bool) (rc : Nat) : Nat :=
  (qr.toNat <<< 15) ||| (opc <<< 11) ||| (aa.toNat <<< 10) |||
  (tc.toNat <<< 9) ||| (rd.toNat <<< 8) |||
  (ra.toNat <<< 7) ||| (z.toNat <<< 4) ||| rc

/-- The flags word `DNSHeader::write` emits for a header. -/
def DNSHeader.packFlags (h : DNSHeader) : Nat :=
  packF h.query_response h.opcode h.auth_answer h.truncated_msg
    h.recur_desired h.recur_available h.z_res h.res_code.to_num

/-- `DNSHeader::write`. -/
def DNSHeader.write (h : DNSHeader) (b : VecBuffer) : Except Err VecBuffer :=
  wbind (write_u16 h.id b) fun b =>
  wbind (write_u16 h.packFlags b) fun b =>
  wbind (write_u16 h.q_count b) fun b =>
  wbind (write_u16 h.an_count b) fun b =>
  wbind (write_u16 h.ns_count b) fun b =>
  write_u16 h.ad_count b

/-- `QueryType` (src/lib.rs lines 106-114). -/
inductive QueryType where
  | UNKNOWN (code : Nat)
  | A
  | NS
  | CNAME
  | SOA
  | MX
  | AAAA
  deriving DecidableEq, Repr

/-- `QueryType::to_num`. -/
def QueryType.to_num : QueryType → Nat
  | .UNKNOWN code => code
  | .A => 1
  | .NS => 2
  | .CNAME => 5
  | .SOA => 6
  | .MX => 15
  | .AAAA => 28

/-- `QueryType::from_num`. -/
def QueryType.from_num (num : Nat) : QueryType :=
  if num = 1 then .A
  else if num = 2 then .NS
  else if num = 5 then .CNAME
  else if num = 6 then .SOA
  else if num = 15 then .MX
  else if num = 28 then .AAAA
  else .UNKNOWN num

/-- `DNSQuestion` (src/lib.rs lines 142-145): a name and a query type (the
class is read but discarded, and written as the constant 1). -/
structure DNSQuestion where
  name : List Nat
  q_type : QueryType
  deriving DecidableEq, Repr

/-- `DNSQuestion::read`: name, type, then a discarded class u16. -/
def DNSQuestion.read (fuel : Nat) (b : VecBuffer) :
    Option (Except Err (DNSQuestion × VecBuffer)) :=
  obind (read_qname fuel b) fun name b =>
  ebind (read_u16 b) fun tnum b =>
  ebind (read_u16 b) fun _ b =>
  some (.ok ({ name := name, q_type := QueryType.from_num tnum }, b))

/-- `DNSQuestion::write`: name, type, then class written as 1. -/
def DNSQuestion.write (q : DNSQuestion) (b : VecBuffer) : Except Err VecBuffer :=
  wbind (write_qname q.name b) fun b =>
  wbind (write_u16 q.q_type.to_num b) fun b =>
  write_u16 1 b

/-- `DNSRecord` (src/lib.rs lines 169-232).  Every variant carries the common
fields (name, q_type, class, ttl, rdlength); an A address is the `u32` value
of its four octets, an AAAA address is its eight 16-bit segments. -/
inductive DNSRecord where
  | UNKNOWN (name : List Nat) (q_type : QueryType) (cls : Nat) (ttl : Nat) (len : Nat)
  | A (name : List Nat) (q_type : QueryType) (cls : Nat) (ttl : Nat) (len : Nat) (addr : Nat)
  | NS (name : List Nat) (q_type : QueryType) (cls : Nat) (ttl : Nat) (len : Nat)
      (host : List Nat)
  | CNAME (name : List Nat) (q_type : QueryType) (cls : Nat) (ttl : Nat) (len : Nat)
      (host : List Nat)
  | MX (name : List Nat) (q_type : QueryType) (cls : Nat) (ttl : Nat) (len : Nat)
      (priority : Nat) (host : List Nat)
  | AAAA (name : List Nat) (q_type : QueryType) (cls : Nat) (ttl : Nat) (len : Nat)
      (addr : List Nat)
  | SOA (name : List Nat) (q_type : QueryType) (cls : Nat) (ttl : Nat) (len : Nat)
      (mname : List Nat) (rname : List Nat) (serial : Nat) (refresh : Nat) (retry : Nat)
      (expire : Nat) (minimum : Nat)
  deriving DecidableEq, Repr

/-- `DNSRecord::get_ttl`. -/
def DNSRecord.get_ttl : DNSRecord → Nat
  | .UNKNOWN _ _ _ ttl _ => ttl
  | .A _ _ _ ttl _ _ => ttl
  | .NS _ _ _ ttl _ _ => ttl
  | .CNAME _ _ _ ttl _ _ => ttl
  | .MX _ _ _ ttl _ _ _ => ttl
  | .AAAA _ _ _ ttl _ _ => ttl
  | .SOA _ _ _ ttl _ _ _ _ _ _ _ _ => ttl

/-- `Ipv4Addr::new((raw >> 24) as u8, (raw >> 16) as u8, (raw >> 8) as u8, raw as u8)`
as the u32 value recomposed from those four octets. -/
def ipv4FromU32 (raw : Nat) : Nat :=
  ((raw >>> 24) % 256) * 16777216 + ((raw >>> 16) % 256) * 65536 +
  ((raw >>> 8) % 256) * 256 + raw % 256

/-- The eight `as u16` segments `Ipv6Addr::new` receives from the four
u32 reads of the AAAA arm. -/
def ipv6Segments (raw1 raw2 raw3 raw4 : Nat) : List Nat :=
  [(raw1 >>> 16) % 65536, raw1 % 65536, (raw2 >>> 16) % 65536, raw2 % 65536,
   (raw3 >>> 16) % 65536, raw3 % 65536, (raw4 >>> 16) % 65536, raw4 % 65536]

/-- `DNSRecord::read` (src/lib.rs lines 246-372): common prefix then dispatch
on the query type.  Note that the A and AAAA arms read their fixed-size
payload without ever consulting the rdlength field `len`. -/
def DNSRecord.read (fuel : Nat) (b : VecBuffer) :
    Option (Except Err (DNSRecord × VecBuffer)) :=
  obind (read_qname fuel b) fun domain b =>
  ebind (read_u16 b) fun tnum b =>
  ebind (read_u16 b) fun cls b =>
  ebind (read_u32 b) fun ttl b =>
  ebind (read_u16 b) fun len b =>
  match QueryType.from_num tnum with
  | .A =>
    ebind (read_u32 b) fun raw b =>
    some (.ok (.A domain .A cls ttl len (ipv4FromU32 raw), b))
  | .NS =>
    obind (read_qname fuel b) fun host b =>
    some (.ok (.NS domain .NS cls ttl len host, b))
  | .CNAME =>
    obind (read_qname fuel b) fun host b =>
    some (.ok (.CNAME domain .CNAME cls ttl len host, b))
  | .MX =>
    ebind (read_u16 b) fun priority b =>
    obind (read_qname fuel b) fun host b =>
    some (.ok (.MX domain .MX cls ttl len priority host, b))
  | .AAAA =>
    ebind (read_u32 b) fun raw1 b =>
    ebind (read_u32 b) fun raw2 b =>
    ebind (read_u32 b) fun raw3 b =>
    ebind (read_u32 b) fun raw4 b =>
    some (.ok (.AAAA domain .AAAA cls ttl len (ipv6Segments raw1 raw2 raw3 raw4), b))
  | .SOA =>
    obind (read_qname fuel b) fun mname b =>
    obind (read_qname fuel b) fun rname b =>
    ebind (read_u32 b) fun serial b =>
    ebind (read_u32 b) fun refresh b =>
    ebind (read_u32 b) fun retry b =>
    ebind (read_u32 b) fun expire b =>
    ebind (read_u32 b) fun minimum b =>
    some (.ok (.SOA domain .SOA cls ttl len mname rname serial refresh retry expire minimum, b))
  | .UNKNOWN n =>
    match b.step len with
    | .error e => some (.error e)
    | .ok b => some (.ok (.UNKNOWN domain (.UNKNOWN n) cls ttl len, b))

/-- The four A-address octets `addr.octets()` written by the A arm of
`DNSRecord::write`. -/
def ipv4Octets (addr : Nat) : List Nat :=
  [(addr >>> 24) % 256, (addr >>> 16) % 256, (addr >>> 8) % 256, addr % 256]

/-- `DNSRecord::write` (src/lib.rs lines 374-489).  The UNKNOWN arm writes
nothing at all (`println!("SKipping unknown record!")`). -/
def DNSRecord.write (r : DNSRecord) (b : VecBuffer) : Except Err VecBuffer :=
  match r with
  | .A name q_type cls ttl len addr =>
    wbind (write_qname name b) fun b =>
    wbind (write_u16 q_type.to_num b) fun b =>
    wbind (write_u16 cls b) fun b =>
    wbind (write_u32 ttl b) fun b =>
    wbind (write_u16 len b) fun b =>
    write_bytes (ipv4Octets addr) b
  | .NS name q_type cls ttl len host =>
    wbind (write_qname name b) fun b =>
    wbind (write_u16 q_type.to_num b) fun b =>
    wbind (write_u16 cls b) fun b =>
    wbind (write_u32 ttl b) fun b =>
    wbind (write_u16 len b) fun b =>
    write_qname host b
  | .CNAME name q_type cls ttl len host =>
    wbind (write_qname name b) fun b =>
    wbind (write_u16 q_type.to_num b) fun b =>
    wbind (write_u16 cls b) fun b =>
    wbind (write_u32 ttl b) fun b =>
    wbind (write_u16 len b) fun b =>
    write_qname host b
  | .MX name q_type cls ttl len priority host =>
    wbind (write_qname name b) fun b =>
    wbind (write_u16 q_type.to_num b) fun b =>
    wbind (write_u16 cls b) fun b =>
    wbind (write_u32 ttl b) fun b =>
    wbind (write_u16 len b) fun b =>
    wbind (write_u16 priority b) fun b =>
    write_qname host b
  | .AAAA name q_type cls ttl len addr =>
    wbind (write_qname name b) fun b =>
    wbind (write_u16 q_type.to_num b) fun b =>
    wbind (write_u16 cls b) fun b =>
    wbind (write_u32 ttl b) fun b =>
    wbind (write_u16 len b) fun b =>
    write_u16_list addr b
  | .SOA name q_type cls ttl len mname rname serial refresh retry expire minimum =>
    wbind (write_qname name b) fun b =>
    wbind (write_u16 q_type.to_num b) fun b =>
    wbind (write_u16 cls b) fun b =>
    wbind (write_u32 ttl b) fun b =>
    wbind (write_u16 len b) fun b =>
    wbind (write_qname mname b) fun b =>
    wbind (write_qname rname b) fun b =>
    wbind (write_u32 serial b) fun b =>
    wbind (write_u32 refresh b) fun b =>
    wbind (write_u32 retry b) fun b =>
    wbind (write_u32 expire b) fun b =>
    write_u32 minimum b
  | .UNKNOWN _ _ _ _ _ => .ok b
where
  /-- `for segment in addr.segments() { write_u16(*segment)?; }` -/
  write_u16_list : List Nat → VecBuffer → Except Err VecBuffer
  | [], b => .ok b
  | x :: xs, b => wbind (write_u16 x b) (write_u16_list xs)

/-- `DNSPacket` (src/lib.rs lines 493-499); `addtional` is the source's own
spelling of the additional section. -/
structure DNSPacket where
  header : DNSHeader
  questions : List DNSQuestion
  answers : List DNSRecord
  authority : List DNSRecord
  addtional : List DNSRecord
  deriving DecidableEq, Repr

/-- `DNSPacket::new()`. -/
def DNSPacket.new : DNSPacket := ⟨DNSHeader.new, [], [], [], []⟩

/-- The `for _ in 0..count { vec.push(read(buf)?) }` loops of
`DNSPacket::from_buffer`, collecting in order. -/
def readListN (read1 : VecBuffer → Option (Except Err (α × VecBuffer))) :
    Nat → VecBuffer → Option (Except Err (List α × VecBuffer))
  | 0, b => some (.ok ([], b))
  | n + 1, b =>
    obind (read1 b) fun x b =>
    obind (readListN read1 n b) fun xs b =>
    some (.ok (x :: xs, b))

/-- `DNSPacket::from_buffer` (src/lib.rs lines 511-532): header, then exactly
q_count questions, an_count answers, ns_count authorities, ad_count
additionals. -/
def DNSPacket.from_buffer (fuel : Nat) (b : VecBuffer) :
    Option (Except Err (DNSPacket × VecBuffer)) :=
  ebind (DNSHeader.read b) fun h b =>
  obind (readListN (DNSQuestion.read fuel) h.q_count b) fun qs b =>
  obind (readListN (DNSRecord.read fuel) h.an_count b) fun ans b =>
  obind (readListN (DNSRecord.read fuel) h.ns_count b) fun auth b =>
  obind (readListN (DNSRecord.read fuel) h.ad_count b) fun add b =>
  some (.ok ({ header := h, questions := qs, answers := ans
             , authority := auth, addtional := add }, b))

/-- Writing one section (`for x in &section { x.write(buf)?; }`). -/
def writeList (write1 : α → VecBuffer → Except Err VecBuffer) :
    List α → VecBuffer → Except Err VecBuffer
  | [], b => .ok b
  | x :: xs, b => wbind (write1 x b) (writeList write1 xs)

/-- The header-count synchronisation at the top of `DNSPacket::write`
(`self.header.q_count = self.questions.len() as u16;` etc.). -/
def DNSPacket.syncCounts (p : DNSPacket) : DNSPacket :=
  { p with header := { p.header with
      q_count := p.questions.length % 65536
    , an_count := p.answers.length % 65536
    , ns_count := p.authority.length % 65536
    , ad_count := p.addtional.length % 65536 } }

/-- `DNSPacket::write` (src/lib.rs lines 539-558): synchronise the counts on
`self` (returned here as the first component, since the source mutates the
packet), then write header and the four sections in order. -/
def DNSPacket.write (p : DNSPacket) (b : VecBuffer) :
    Except Err (DNSPacket × VecBuffer) :=
  let p := p.syncCounts
  match (wbind (p.header.write b) fun b =>
         wbind (writeList DNSQuestion.write p.questions b) fun b =>
         wbind (writeList DNSRecord.write p.answers b) fun b =>
         wbind (writeList DNSRecord.write p.authority b) fun b =>
         writeList DNSRecord.write p.addtional b) with
  | .error e => .error e
  | .ok b => .ok (p, b)

/-- `DNSPacket::get_random_a`: the first A record of the answer section. -/
def DNSPacket.get_random_a (p : DNSPacket) : Option Nat :=
  (p.answers.filterMap fun r =>
    match r with
    | .A _ _ _ _ _ addr => some addr
    | _ => none).head?

/-- `DNSPacket::get_ns`: (owner, host) of the NS records in the authority
section whose owner is a suffix of the query name. -/
def DNSPacket.get_ns (p : DNSPacket) (qname : List Nat) : List (List Nat × List Nat) :=
  (p.authority.filterMap fun r =>
    match r with
    | .NS name _ _ _ _ host => some (name, host)
    | _ => none).filter fun x => x.1.isSuffixOf qname

/-- `DNSPacket::get_resolved_ns`: the first glue A address in the additional
section whose owner equals some matching NS host. -/
def DNSPacket.get_resolved_ns (p : DNSPacket) (qname : List Nat) : Option Nat :=
  ((p.get_ns qname).flatMap fun x =>
    p.addtional.filterMap fun r =>
      match r with
      | .A name _ _ _ _ addr => if name = x.2 then some addr else none
      | _ => none).head?

/-- `DNSPacket::get_unresolved_ns`: the first matching NS host name. -/
def DNSPacket.get_unresolved_ns (p : DNSPacket) (qname : List Nat) : Option (List Nat) :=
  ((p.get_ns qname).map fun x => x.2).head?

/-- `CacheEntry` (src/cache.rs lines 7-10).  `SystemTime` is modelled as
nanoseconds since some epoch, so a `Duration::new(secs, 0)` is
`secs * 1000000000` nanoseconds. -/
structure CacheEntry where
  records : List DNSRecord
  timestamp : Nat
  deriving DecidableEq, Repr

/-- The map inside `DNSCache` (a `HashMap<(String, QueryType), CacheEntry>`),
modelled extensionally as a function from keys to optional entries. -/
def DNSCache := (List Nat × QueryType) → Option CacheEntry

/-- The empty cache. -/
def DNSCache.empty : DNSCache := fun _ => none

/-- `DNSCache::get_records` (src/cache.rs lines 40-56), with the current
instant `now` passed explicitly (the source calls `SystemTime::now()`; the
source's `duration_since(...).unwrap()` also requires `entry.timestamp ≤ now`,
which every theorem below assumes).  A record survives the filter when
`Duration::new(ttl, 0) > now - timestamp`. -/
def DNSCache.get_records (c : DNSCache) (qname : List Nat) (q_type : QueryType)
    (now : Nat) : Option DNSPacket :=
  match c (qname, q_type) with
  | none => none
  | some entry =>
    let records := entry.records.filter fun record =>
      decide (now - entry.timestamp < record.get_ttl * 1000000000)
    if records.length = 0 then none
    else some { DNSPacket.new with answers := records }

/-- `DNSCache::set_records` (src/cache.rs lines 58-68): store
answers ++ authority ++ additional under the key with a fresh timestamp,
overwriting any previous entry. -/
def DNSCache.set_records (c : DNSCache) (qname : List Nat) (q_type : QueryType)
    (packet : DNSPacket) (now : Nat) : DNSCache :=
  fun k =>
    if k = (qname, q_type) then
      some { records := packet.answers ++ packet.authority ++ packet.addtional
           , timestamp := now }
    else c k

/-- The root hint `198.41.0.4` as a u32 (src/main.rs line 51). -/
def rootHint : Nat := 3324575748

/-- The upstream transport (`udp_lookup` / `tcp_lookup`) abstracted as an
oracle: given the query name, query type and the server address, it produces
the decoded reply packet or an I/O error. -/
def Oracle := List Nat → QueryType → Nat → Except Err DNSPacket

/-- The `loop` inside `recursive_lookup` (src/main.rs lines 45-90),
step-indexed, starting from name-server address `ns`.  `none` means the
engine does not finish within `fuel` combined loop iterations and recursive
calls — the source has **no iteration cap and no recursion-depth cap**, so a
delegation loop genuinely never returns.  Alongside the result we record the
trace of upstream queries `(qname, q_type, ns)` sent, one per loop entry, to
state facts about what the engine contacts (it never consults the cache). -/
def lookupLoop (oracle : Oracle) :
    Nat → List Nat → QueryType → Nat →
    Option (Except Err DNSPacket × List (List Nat × QueryType × Nat))
  | 0, _, _, _ => none
  | fuel + 1, qname, q_type, ns =>
    match oracle qname q_type ns with
    | .error e => some (.error e, [(qname, q_type, ns)])
    | .ok response =>
      if response.answers ≠ [] ∧ response.header.res_code = .NOERROR then
        some (.ok response, [(qname, q_type, ns)])
      else if response.header.res_code = .NXDOMAIN then
        some (.ok response, [(qname, q_type, ns)])
      else
        match response.get_resolved_ns qname with
        | some newNs =>
          match lookupLoop oracle fuel qname q_type newNs with
          | none => none
          | some (r, tr) => some (r, (qname, q_type, ns) :: tr)
        | none =>
          match response.get_unresolved_ns qname with
          | none => some (.ok response, [(qname, q_type, ns)])
          | some newName =>
            match lookupLoop oracle fuel newName .A rootHint with
            | none => none
            | some (.error e, tr) => some (.error e, (qname, q_type, ns) :: tr)
            | some (.ok rres, tr) =>
              match rres.get_random_a with
              | some newNs =>
                match lookupLoop oracle fuel qname q_type newNs with
                | none => none
                | some (r, tr2) => some (r, (qname, q_type, ns) :: (tr ++ tr2))
              | none => some (.ok response, (qname, q_type, ns) :: tr)

/-- `recursive_lookup` (src/main.rs lines 45-90): the loop starting at the
root hint.  Note there is no cache parameter: the engine never probes the
cache. -/
def recursive_lookup (oracle : Oracle) (fuel : Nat) (qname : List Nat)
    (q_type : QueryType) :
    Option (Except Err DNSPacket × List (List Nat × QueryType × Nat)) :=
  lookupLoop oracle fuel qname q_type rootHint

/-- The fresh reply packet both server paths build before dispatching: copy
id and RD from the request header, set RA and QR. -/
def replyBase (req : DNSPacket) : DNSPacket :=
  { DNSPacket.new with header :=
    { DNSHeader.new with
        id := req.header.id
      , recur_desired := req.header.recur_desired
      , recur_available := true
      , query_response := true } }

/-- The reply on engine success: the popped question, the engine response's
rcode and its three record sections pushed onto the base reply. -/
def okReply (req : DNSPacket) (question : DNSQuestion) (result : DNSPacket) : DNSPacket :=
  { replyBase req with
      header := { (replyBase req).header with res_code := result.header.res_code }
    , questions := [question]
    , answers := result.answers
    , authority := result.authority
    , addtional := result.addtional }

/-- The reply when the engine returns an error. -/
def servfailReply (req : DNSPacket) : DNSPacket :=
  { replyBase req with
      header := { (replyBase req).header with res_code := .SERVFAIL } }

/-- The reply when the request carries no question. -/
def formerrReplyFor (req : DNSPacket) : DNSPacket :=
  { replyBase req with
      header := { (replyBase req).header with res_code := .FORMERR } }

/-- The reply construction shared by `DNSUdpServer::handle_request`
(src/main.rs lines 136-187) and `DNSTcpServer::handle_connection` (lines
216-259), after the request has been decoded: build a fresh packet copying
id and RD, setting RA and QR; pop the last question; on engine success copy
rcode and the three record sections, on engine error set SERVFAIL, with no
question set FORMERR.  `none` means the engine call never returned. -/
def handle_request_core (oracle : Oracle) (fuel : Nat) (req : DNSPacket) :
    Option DNSPacket :=
  match req.questions.getLast? with
  | some question =>
    match recursive_lookup oracle fuel question.name question.q_type with
    | none => none
    | some (.ok result, _) => some (okReply req question result)
    | some (.error _, _) => some (servfailReply req)
  | none => some (formerrReplyFor req)

/-- The datagram path (`DNSUdpServer::handle_request`). -/
def handle_request_udp (oracle : Oracle) (fuel : Nat) (req : DNSPacket) :
    Option DNSPacket :=
  handle_request_core oracle fuel req

/-- The stream path (`DNSTcpServer::handle_connection`). -/
def handle_connection_tcp (oracle : Oracle) (fuel : Nat) (req : DNSPacket) :
    Option DNSPacket :=
  handle_request_core oracle fuel req

/-- A host name ("ns") used by the delegation-loop scenario. -/
def loopHost : List Nat := [110, 115]

/-- A glued self-delegation: NOERROR, no answers, an NS record whose owner
(the root, decoded as the empty name) matches every query name, with glue in
the additional section pointing back at the root hint itself. -/
def loopPacket : DNSPacket :=
  { header := DNSHeader.new
  , questions := []
  , answers := []
  , authority := [.NS [] .NS 1 60 0 loopHost]
  , addtional := [.A loopHost .A 1 60 4 rootHint] }

/-- An upstream world in which every server replies with the self-delegation
`loopPacket` — the "server X delegates to X" scenario of the spec. -/
def loopOracle : Oracle := fun _ _ _ => .ok loopPacket

/-- A 63-byte label of 'a's. -/
def longLabel : List Nat := List.replicate 63 97

/-- The wire encoding of a pointer-free name with five 63-byte labels:
5 × 63 = 315 total label bytes, exceeding the DNS limit of 255. -/
def longNameBuf : List Nat := (List.replicate 5 (63 :: longLabel)).flatMap id ++ [0]

/-- The decoded form of `longNameBuf`: the five labels joined by '.'. -/
def longName : List Nat := joinDot (List.replicate 5 longLabel)

/-- A concrete A record ("a" ↦ 0.0.0.7, TTL 100) used by the cache scenarios. -/
def cachedARecord : DNSRecord := .A [97] .A 1 100 4 7

/-- A packet carrying `cachedARecord` as its only answer. -/
def cachedPacket : DNSPacket := { DNSPacket.new with answers := [cachedARecord] }

/-- A distinct upstream answer for the same name ("a" ↦ 0.0.0.9). -/
def netPacket : DNSPacket := { DNSPacket.new with answers := [.A [97] .A 1 100 4 9] }

/-- An upstream world whose every server immediately answers with `netPacket`. -/
def c8Oracle : Oracle := fun _ _ _ => .ok netPacket

/-- A cache holding a live entry for the key ("a", A). -/
def c8Cache : DNSCache := DNSCache.empty.set_records [97] .A cachedPacket 0

/-- The two big-endian bytes `write_u16 v` emits. -/
def enc16 (v : Nat) : List Nat := [(v >>> 8) % 256, (v &&& 0xFF) % 256]

/-- The four big-endian bytes `write_u32 v` emits. -/
def enc32 (v : Nat) : List Nat :=
  enc16 ((v >>> 16) % 65536) ++ enc16 ((v &&& 0xFFFF) % 65536)

/-- The bytes `write_qname` emits for a list of labels: each label
length-prefixed, then the terminating zero. -/
def encLabels (ls : List (List Nat)) : List Nat :=
  ls.flatMap (fun l => l.length :: l) ++ [0]

/-- The bytes `write_qname` emits for a name. -/
def encName (n : List Nat) : List Nat := encLabels (splitDot n)

/-- The bytes `DNSQuestion::write` emits. -/
def encQuestion (q : DNSQuestion) : List Nat :=
  encName q.name ++ enc16 q.q_type.to_num ++ enc16 1

/-- The bytes `DNSRecord::write` emits (nothing at all for UNKNOWN). -/
def encRecord : DNSRecord → List Nat
  | .A name qt cls ttl len addr =>
    encName name ++ enc16 qt.to_num ++ enc16 cls ++ enc32 ttl ++ enc16 len ++ ipv4Octets addr
  | .NS name qt cls ttl len host =>
    encName name ++ enc16 qt.to_num ++ enc16 cls ++ enc32 ttl ++ enc16 len ++ encName host
  | .CNAME name qt cls ttl len host =>
    encName name ++ enc16 qt.to_num ++ enc16 cls ++ enc32 ttl ++ enc16 len ++ encName host
  | .MX name qt cls ttl len priority host =>
    encName name ++ enc16 qt.to_num ++ enc16 cls ++ enc32 ttl ++ enc16 len ++
      enc16 priority ++ encName host
  | .AAAA name qt cls ttl len addr =>
    encName name ++ enc16 qt.to_num ++ enc16 cls ++ enc32 ttl ++ enc16 len ++
      addr.flatMap enc16
  | .SOA name qt cls ttl len mname rname serial refresh retry expire minimum =>
    encName name ++ enc16 qt.to_num ++ enc16 cls ++ enc32 ttl ++ enc16 len ++
      encName mname ++ encName rname ++ enc32 serial ++ enc32 refresh ++ enc32 retry ++
      enc32 expire ++ enc32 minimum
  | .UNKNOWN _ _ _ _ _ => []

/-- The twelve header bytes `DNSHeader::write` emits. -/
def encHeader (h : DNSHeader) : List Nat :=
  enc16 h.id ++ enc16 h.packFlags ++ enc16 h.q_count ++ enc16 h.an_count ++
  enc16 h.ns_count ++ enc16 h.ad_count

/-- The full message `DNSPacket::write` emits into a fresh buffer. -/
def encPacket (p : DNSPacket) : List Nat :=
  encHeader p.syncCounts.header ++ p.questions.flatMap encQuestion ++
  p.answers.flatMap encRecord ++ p.authority.flatMap encRecord ++
  p.addtional.flatMap encRecord

/-- A label byte that survives the decoder's lowercasing untouched: ASCII
(the modelling boundary of `lowerByte`) and not an uppercase letter. -/
def okByte (b : Nat) : Bool := decide (b < 128) && !(decide (65 ≤ b) && decide (b ≤ 90))

/-- A label the codec round-trips: non-empty (the encoder's zero-length
terminator would otherwise cut the name short), at most 63 bytes (else the
encoder fails with `LabelTooLong`), all bytes lowercase-stable ASCII. -/
def validLabel (l : List Nat) : Bool :=
  !l.isEmpty && decide (l.length ≤ 63) && l.all okByte

/-- A name whose every '.'-separated label is valid. -/
def validName (n : List Nat) : Bool := (splitDot n).all validLabel

/-- A query type whose numeric code round-trips: for UNKNOWN, the code must
not collide with a named code (the decoder would pick the named variant)
and must fit in a u16. -/
def QueryType.wf : QueryType → Bool
  | .UNKNOWN n =>
    !(decide (n = 1) || decide (n = 2) || decide (n = 5) || decide (n = 6) ||
      decide (n = 15) || decide (n = 28)) && decide (n < 65536)
  | _ => true

/-- A record the codec round-trips: a known type whose q_type field matches
the variant (as every decoded record has), valid names, and fields within
their wire widths.  UNKNOWN records are excluded: the encoder drops them. -/
def validRecord : DNSRecord → Bool
  | .UNKNOWN _ _ _ _ _ => false
  | .A name qt cls ttl len addr =>
    validName name && decide (qt = .A) && decide (cls < 65536) &&
    decide (ttl < 4294967296) && decide (len < 65536) && decide (addr < 4294967296)
  | .NS name qt cls ttl len host =>
    validName name && validName host && decide (qt = .NS) && decide (cls < 65536) &&
    decide (ttl < 4294967296) && decide (len < 65536)
  | .CNAME name qt cls ttl len host =>
    validName name && validName host && decide (qt = .CNAME) && decide (cls < 65536) &&
    decide (ttl < 4294967296) && decide (len < 65536)
  | .MX name qt cls ttl len priority host =>
    validName name && validName host && decide (qt = .MX) && decide (cls < 65536) &&
    decide (ttl < 4294967296) && decide (len < 65536) && decide (priority < 65536)
  | .AAAA name qt cls ttl len addr =>
    validName name && decide (qt = .AAAA) && decide (cls < 65536) &&
    decide (ttl < 4294967296) && decide (len < 65536) &&
    decide (addr.length = 8) && addr.all (fun s => decide (s < 65536))
  | .SOA name qt cls ttl len mname rname serial refresh retry expire minimum =>
    validName name && validName mname && validName rname && decide (qt = .SOA) &&
    decide (cls < 65536) && decide (ttl < 4294967296) && decide (len < 65536) &&
    decide (serial < 4294967296) && decide (refresh < 4294967296) &&
    decide (retry < 4294967296) && decide (expire < 4294967296) &&
    decide (minimum < 4294967296)

/-- A header within wire widths. -/
def validHeader (h : DNSHeader) : Bool :=
  decide (h.id < 65536) && decide (h.opcode < 16) && decide (h.q_count < 65536) &&
  decide (h.an_count < 65536) && decide (h.ns_count < 65536) && decide (h.ad_count < 65536)

/-- A question with a valid name and a round-tripping query type. -/
def validQuestion (q : DNSQuestion) : Bool := validName q.name && q.q_type.wf

/-- A packet the codec round-trips: valid header, questions and records, and
header counts equal to the section lengths (as in every decoded packet). -/
def validPacket (p : DNSPacket) : Bool :=
  validHeader p.header && p.questions.all validQuestion &&
  p.answers.all validRecord && p.authority.all validRecord &&
  p.addtional.all validRecord &&
  decide (p.header.q_count = p.questions.length) &&
  decide (p.header.an_count = p.answers.length) &&
  decide (p.header.ns_count = p.authority.length) &&
  decide (p.header.ad_count = p.addtional.length)

/-- The output `read_qname`'s label loop accumulates on top of `acc` for the
remaining labels `ls`: every label preceded by a '.' once the delimiter latch
is set, otherwise the labels joined by '.'. -/
def delimJoin (delim : Bool) (acc : List Nat) (ls : List (List Nat)) : List Nat :=
  if delim then acc ++ ls.flatMap (fun l => 46 :: l) else acc ++ joinDot ls

/-- Fuel sufficient to decode one pointer-free name: one loop iteration per
label plus the terminating zero. -/
def nameFuel (n : List Nat) : Nat := (splitDot n).length + 1

/-- All names a record contains. -/
def recordNames : DNSRecord → List (List Nat)
  | .UNKNOWN name _ _ _ _ => [name]
  | .A name _ _ _ _ _ => [name]
  | .NS name _ _ _ _ host => [name, host]
  | .CNAME name _ _ _ _ host => [name, host]
  | .MX name _ _ _ _ _ host => [name, host]
  | .AAAA name _ _ _ _ _ => [name]
  | .SOA name _ _ _ _ mname rname _ _ _ _ _ => [name, mname, rname]

/-- All names a packet contains. -/
def packetNames (p : DNSPacket) : List (List Nat) :=
  p.questions.map DNSQuestion.name ++
  (p.answers ++ p.authority ++ p.addtional).flatMap recordNames

/-- Fuel sufficient to decode every name of the packet. -/
def packetFuel (p : DNSPacket) : Nat := ((packetNames p).map nameFuel).foldr max 0

/-- `f` reads exactly the bytes `bs` from the cursor and yields `a`: on any
buffer whose bytes at the cursor start with `bs`, it succeeds with `a`,
leaves the bytes unchanged and moves the cursor past `bs`. -/
def ReadsTo (f : VecBuffer → Except Err (α × VecBuffer)) (bs : List Nat) (a : α) : Prop :=
  ∀ B p, p + bs.length ≤ B.length → (B.drop p).take bs.length = bs →
    f ⟨B, p⟩ = .ok (a, ⟨B, p + bs.length⟩)

/-- `ReadsTo` for step-indexed readers. -/
def ReadsToF (f : VecBuffer → Option (Except Err (α × VecBuffer))) (bs : List Nat)
    (a : α) : Prop :=
  ∀ B p, p + bs.length ≤ B.length → (B.drop p).take bs.length = bs →
    f ⟨B, p⟩ = some (.ok (a, ⟨B, p + bs.length⟩))

/-- `f` appends exactly the bytes `bs` (writers on a `VecBuffer` always
append at the end and advance the cursor by the number of bytes written). -/
def WritesTo (f : VecBuffer → Except Err VecBuffer) (bs : List Nat) : Prop :=
  ∀ B p, f ⟨B, p⟩ = .ok ⟨B ++ bs, p + bs.length⟩

/-- The wire bytes of the C3 counterexample: id 0, flags 0, one answer, an
UNKNOWN-type (99) record named "a" with class 1, TTL 0 and rdlength 0. -/
def unkMsgBytes : List Nat :=
  [0, 0, 0, 0, 0, 0, 0, 1, 0, 0, 0, 0] ++ [1, 97, 0] ++ [0, 99] ++ [0, 1] ++
  [0, 0, 0, 0] ++ [0, 0]

/-- A small concrete packet (id 6996, RD set, one A question for "a") used
to exercise the round-trip theorem. -/
def rtPacket : DNSPacket :=
  { header := { DNSHeader.new with id := 6996, recur_desired := true, q_count := 1 }
  , questions := [⟨[97], .A⟩]
  , answers := []
  , authority := []
  , addtional := [] }

/-- The decoded form of `unkMsgBytes`. -/
def unkPacket : DNSPacket :=
  { header := { DNSHeader.new with an_count := 1 }
  , questions := []
  , answers := [.UNKNOWN [97] (.UNKNOWN 99) 1 0 0]
  , authority := []
  , addtional := [] }

end Diglett

namespace Diglett

/-! ### Helper lemmas -/

/-- In the buffer `[0xC0, 0x00]` the pointer at position 0 targets offset 0:
once the jump latch is set, every further iteration lands back on the same
pointer, so no fuel suffices. -/
theorem read_qname_go_cycle (fuel : Nat) :
    ∀ bpos, read_qname_go [192, 0] fuel bpos 0 true false [] = none := by
  induction fuel with
  | zero => intro bpos; rfl
  | succ n ih =>
    intro bpos
    show read_qname_go [192, 0] (n + 1) bpos 0 true false [] = none
    have h192 : (192 : Nat) &&& 0xC0 = 0xC0 := by decide
    have hoff : (((192 : Nat) ^^^ 0xC0) <<< 8) ||| 0 = 0 := by decide
    simp only [read_qname_go, List.length_cons, List.length_nil, List.getD]
    norm_num [h192, hoff]
    exact ih bpos

/-- Splitting a take of `m + n` bytes: the first `m` of them. -/
theorem take_split_left {α} {L : List α} {m n : Nat} {xs ys : List α}
    (h : L.take (m + n) = xs ++ ys) (hx : xs.length = m) : L.take m = xs := by
  subst hx
  have h2 := congrArg (List.take xs.length) h
  rw [List.take_take, List.take_append_eq_append_take] at h2
  simp only [List.take_length, Nat.sub_self, List.take_zero, List.append_nil] at h2
  rw [show min xs.length (xs.length + n) = xs.length by omega] at h2
  exact h2

/-- Splitting a take of `m + n` bytes: the last `n` of them. -/
theorem drop_split_right {α} {L : List α} {m n : Nat} {xs ys : List α}
    (h : L.take (m + n) = xs ++ ys) (hx : xs.length = m) : (L.drop m).take n = ys := by
  subst hx
  have h2 := congrArg (List.drop xs.length) h
  rw [List.drop_take, List.drop_append_eq_append_drop] at h2
  rw [List.drop_length] at h2
  rw [show xs.length + n - xs.length = n by omega] at h2
  simpa using h2

/-- A single byte at the cursor. -/
theorem byte_at {B : List Nat} {p : Nat} {v : Nat}
    (h : (B.drop p).take 1 = [v]) : B.getD p 0 = v := by
  rcases hd : B.drop p with _ | ⟨a, t⟩
  · rw [hd] at h; simp at h
  · rw [hd] at h
    simp at h
    have hB : B[p]? = some a := by
      have := List.getElem?_drop B p 0
      rw [hd] at this
      simpa using this.symm
    simp [List.getD_eq_getElem?_getD, hB, h]

/-- Bitwise-or of a shifted value with a small value is their sum. -/
theorem lor_as_add {k : Nat} (a b : Nat) (hb : b < 2 ^ k) :
    (a <<< k) ||| b = a * 2 ^ k + b := by
  apply Nat.eq_of_testBit_eq
  intro j
  rw [Nat.testBit_lor, Nat.testBit_shiftLeft]
  rcases Nat.lt_or_ge j k with hj | hj
  · have hd : decide (j ≥ k) = false := by simp; omega
    rw [hd]
    simp only [Bool.false_and, Bool.false_or]
    have hk : 2 ^ k = 2 ^ (k - j) * 2 ^ j := by
      rw [← Nat.pow_add]
      congr 1
      omega
    rw [Nat.testBit_to_div_mod, Nat.testBit_to_div_mod]
    congr 1
    rw [hk, ← Nat.mul_assoc]
    rw [Nat.mul_comm (a * 2 ^ (k - j)) (2 ^ j), Nat.mul_add_div (Nat.two_pow_pos j)]
    have h2 : 2 ^ (k - j) = 2 * 2 ^ (k - j - 1) := by
      rw [← Nat.pow_succ']
      congr 1
      omega
    rw [h2]
    rw [show a * (2 * 2 ^ (k - j - 1)) = 2 * (a * 2 ^ (k - j - 1)) by ring]
    rw [Nat.mul_add_mod]
  · have hd : decide (j ≥ k) = true := by simp; omega
    rw [hd]
    simp only [Bool.true_and]
    have hb' : b.testBit j = false :=
      Nat.testBit_lt_two_pow (lt_of_lt_of_le hb (Nat.pow_le_pow_right (by norm_num) hj))
    rw [hb', Bool.or_false]
    rw [Nat.testBit_to_div_mod, Nat.testBit_to_div_mod]
    congr 2
    have hk : 2 ^ j = 2 ^ k * 2 ^ (j - k) := by
      rw [← Nat.pow_add]; congr 1; omega
    rw [hk, ← Nat.div_div_eq_div_mul]
    rw [Nat.mul_comm a (2 ^ k), Nat.mul_add_div (Nat.two_pow_pos k),
      Nat.div_eq_of_lt hb, Nat.add_zero]

/-- Recomposing the two bytes of a u16 (`(hi << 8) | lo`). -/
theorem byte_recompose (hi lo : Nat) (hlo : lo < 256) :
    (hi <<< 8) ||| lo = hi * 256 + lo :=
  lor_as_add hi lo hlo

/-- Reading back the two bytes `write_u16` emitted for `v < 2^16` gives `v`. -/
theorem u16_recompose (v : Nat) (hv : v < 65536) :
    (((v >>> 8) % 256) <<< 8) ||| ((v &&& 0xFF) % 256) = v := by
  have h8 : v >>> 8 = v / 256 := by
    rw [Nat.shiftRight_eq_div_pow]
  have hand : v &&& 0xFF = v % 256 := by
    have := Nat.and_pow_two_sub_one_eq_mod v 8
    norm_num at this
    exact this
  rw [h8, hand]
  rw [Nat.mod_eq_of_lt (by omega : v / 256 < 256)]
  rw [Nat.mod_eq_of_lt (Nat.mod_lt _ (by norm_num) : v % 256 < 256)]
  rw [byte_recompose _ _ (Nat.mod_lt _ (by norm_num))]
  omega

/-- Recomposing the two u16 halves of a u32 (`(hi << 16) | lo`). -/
theorem u32_recompose (v : Nat) (hv : v < 4294967296) :
    (((v >>> 16) % 65536) <<< 16) ||| ((v &&& 0xFFFF) % 65536) = v := by
  have h16 : v >>> 16 = v / 65536 := by
    rw [Nat.shiftRight_eq_div_pow]
  have hand : v &&& 0xFFFF = v % 65536 := by
    have := Nat.and_pow_two_sub_one_eq_mod v 16
    norm_num at this
    exact this
  rw [h16, hand]
  rw [Nat.mod_eq_of_lt (by omega : v / 65536 < 65536), Nat.mod_mod_of_dvd _ (by norm_num)]
  rw [lor_as_add _ _ (show v % 65536 < 2 ^ 16 by have := Nat.mod_lt v (y := 65536) (by norm_num); omega)]
  omega

/-- `RCode` discriminants round-trip. -/
theorem rcode_roundtrip (rc : RCode) : RCode.from_num rc.to_num = rc := by
  cases rc <;> rfl

/-- `RCode` discriminants are below 6. -/
theorem rcode_to_num_lt (rc : RCode) : rc.to_num < 6 := by
  cases rc <;> decide

/-- Well-formed `QueryType` codes round-trip. -/
theorem querytype_roundtrip (t : QueryType) (ht : t.wf = true) :
    QueryType.from_num t.to_num = t := by
  cases t with
  | UNKNOWN n =>
    have h1 : n ≠ 1 := fun h => by rw [h] at ht; exact absurd ht (by decide)
    have h2 : n ≠ 2 := fun h => by rw [h] at ht; exact absurd ht (by decide)
    have h5 : n ≠ 5 := fun h => by rw [h] at ht; exact absurd ht (by decide)
    have h6 : n ≠ 6 := fun h => by rw [h] at ht; exact absurd ht (by decide)
    have h15 : n ≠ 15 := fun h => by rw [h] at ht; exact absurd ht (by decide)
    have h28 : n ≠ 28 := fun h => by rw [h] at ht; exact absurd ht (by decide)
    simp [QueryType.to_num, QueryType.from_num, h1, h2, h5, h6, h15, h28]
  | A => rfl
  | NS => rfl
  | CNAME => rfl
  | SOA => rfl
  | MX => rfl
  | AAAA => rfl

/-- Well-formed `QueryType` codes fit in a u16. -/
theorem querytype_to_num_lt (t : QueryType) (ht : t.wf = true) : t.to_num < 65536 := by
  cases t with
  | UNKNOWN n =>
    simp only [QueryType.wf, Bool.and_eq_true, decide_eq_true_eq] at ht
    exact ht.2
  | A => decide
  | NS => decide
  | CNAME => decide
  | SOA => decide
  | MX => decide
  | AAAA => decide

set_option maxHeartbeats 2000000 in
/-- The bit extractions `DNSHeader::read` performs on a packed flags word
recover the packed fields, and the word fits in a u16. -/
theorem flags_unpack : ∀ opc < 16, ∀ rc < 6, ∀ qr aa tc rd ra z : Bool,
    packF qr opc aa tc rd ra z rc < 65536 ∧
    decide (0 < packF qr opc aa tc rd ra z rc &&& (1 <<< 15)) = qr ∧
    ((packF qr opc aa tc rd ra z rc >>> 11) &&& 0xF) = opc ∧
    decide (0 < packF qr opc aa tc rd ra z rc &&& (1 <<< 10)) = aa ∧
    decide (0 < packF qr opc aa tc rd ra z rc &&& (1 <<< 9)) = tc ∧
    decide (0 < packF qr opc aa tc rd ra z rc &&& (1 <<< 8)) = rd ∧
    decide (0 < packF qr opc aa tc rd ra z rc &&& (1 <<< 7)) = ra ∧
    decide (0 < packF qr opc aa tc rd ra z rc &&& (7 <<< 4)) = z ∧
    (packF qr opc aa tc rd ra z rc &&& 0xF) = rc := by decide

/-- The bytes a writer emits can be rewritten along a list equality. -/
theorem WritesTo.wcongr {f : VecBuffer → Except Err VecBuffer} {bs bs' : List Nat}
    (h : WritesTo f bs) (he : bs = bs') : WritesTo f bs' := he ▸ h

/-- `wbind` over a success feeds the buffer to the continuation. -/
theorem wbind_ok {b : VecBuffer} {g : VecBuffer → Except Err VecBuffer} :
    wbind (.ok b) g = g b := rfl

/-- Sequencing two writers appends their bytes. -/
theorem WritesTo.comp {f g : VecBuffer → Except Err VecBuffer} {xs ys : List Nat}
    (hf : WritesTo f xs) (hg : WritesTo g ys) :
    WritesTo (fun b => wbind (f b) g) (xs ++ ys) := by
  intro B p
  show wbind (f ⟨B, p⟩) g = _
  rw [hf B p, wbind_ok, hg]
  simp [List.append_assoc, Nat.add_assoc]

/-- `VecBuffer::write` emits its byte. -/
theorem writesTo_write (v : Nat) : WritesTo (fun b => b.write v) [v] := by
  intro B p
  rfl

/-- `write_bytes` emits the byte list. -/
theorem writesTo_bytes (l : List Nat) : WritesTo (write_bytes l) l := by
  induction l with
  | nil =>
    intro B p
    simp [write_bytes, WritesTo]
  | cons x xs ih => exact ((writesTo_write x).comp ih).wcongr (by simp)

/-- `write_u16` emits the two big-endian bytes. -/
theorem writesTo_u16 (v : Nat) : WritesTo (write_u16 v) (enc16 v) := by
  intro B p
  show wbind (VecBuffer.write ⟨B, p⟩ ((v >>> 8) % 256)) _ = _
  rw [show VecBuffer.write ⟨B, p⟩ ((v >>> 8) % 256) =
    .ok ⟨B ++ [(v >>> 8) % 256], p + 1⟩ from rfl, wbind_ok]
  show VecBuffer.write _ ((v &&& 0xFF) % 256) = _
  simp [VecBuffer.write, enc16, List.append_assoc]

/-- `write_u32` emits the four big-endian bytes. -/
theorem writesTo_u32 (v : Nat) : WritesTo (write_u32 v) (enc32 v) := by
  have := (writesTo_u16 ((v >>> 16) % 65536)).comp (writesTo_u16 ((v &&& 0xFFFF) % 65536))
  exact this.wcongr rfl

/-- `write_labels` emits the length-prefixed labels, provided every label
fits in 63 bytes. -/
theorem writesTo_labels (ls : List (List Nat)) (h : ∀ l ∈ ls, l.length ≤ 63) :
    WritesTo (write_labels ls) (ls.flatMap (fun l => l.length :: l)) := by
  induction ls with
  | nil =>
    intro B p
    simp [write_labels, WritesTo]
  | cons l ls ih =>
    intro B p
    show write_labels (l :: ls) ⟨B, p⟩ = _
    simp only [write_labels]
    rw [if_neg (Nat.not_lt.mpr (h l (by simp)))]
    rw [show VecBuffer.write ⟨B, p⟩ l.length = .ok ⟨B ++ [l.length], p + 1⟩ from rfl,
      wbind_ok]
    show wbind (write_bytes l ⟨B ++ [l.length], p + 1⟩) (write_labels ls) = _
    rw [writesTo_bytes l, wbind_ok]
    rw [ih (fun x hx => h x (by simp [hx]))]
    simp [List.append_assoc]
    omega

/-- `write_qname` emits `encName`, provided every label fits in 63 bytes. -/
theorem writesTo_qname (n : List Nat) (h : ∀ l ∈ splitDot n, l.length ≤ 63) :
    WritesTo (write_qname n) (encName n) := by
  intro B p
  show wbind (write_labels (splitDot n) ⟨B, p⟩) (fun b => b.write 0) = _
  rw [writesTo_labels (splitDot n) h, wbind_ok]
  show VecBuffer.write _ 0 = _
  simp [VecBuffer.write, encName, encLabels, List.append_assoc]
  omega

/-- Valid names have short labels. -/
theorem validName_labels_short {n : List Nat} (h : validName n = true) :
    ∀ l ∈ splitDot n, l.length ≤ 63 := by
  intro l hl
  have := (List.all_eq_true.mp h) l hl
  simp only [validLabel, Bool.and_eq_true, decide_eq_true_eq] at this
  exact this.1.2

/-- `DNSQuestion::write` emits `encQuestion` for a valid name. -/
theorem writesTo_question (q : DNSQuestion) (h : validQuestion q = true) :
    WritesTo q.write (encQuestion q) := by
  have hn : validName q.name = true := by
    simp only [validQuestion, Bool.and_eq_true] at h
    exact h.1
  have := (writesTo_qname q.name (validName_labels_short hn)).comp
    ((writesTo_u16 q.q_type.to_num).comp (writesTo_u16 1))
  exact this.wcongr (by simp [encQuestion, List.append_assoc])

/-- `write_u16_list` (the AAAA segment loop) emits each segment's bytes. -/
theorem writesTo_u16_list (l : List Nat) :
    WritesTo (DNSRecord.write.write_u16_list l) (l.flatMap enc16) := by
  induction l with
  | nil =>
    intro B p
    simp [DNSRecord.write.write_u16_list, WritesTo]
  | cons x xs ih => exact ((writesTo_u16 x).comp ih).wcongr (by simp)

/-- `DNSRecord::write` emits `encRecord` for a valid record. -/
theorem writesTo_record (r : DNSRecord) (h : validRecord r = true) :
    WritesTo r.write (encRecord r) := by
  cases r with
  | UNKNOWN name qt cls ttl len =>
    simp [validRecord] at h
  | A name qt cls ttl len addr =>
    simp only [validRecord, Bool.and_eq_true, decide_eq_true_eq] at h
    obtain ⟨⟨⟨⟨⟨hvn, _⟩, _⟩, _⟩, _⟩, _⟩ := h
    have := (writesTo_qname name (validName_labels_short hvn)).comp
      ((writesTo_u16 qt.to_num).comp ((writesTo_u16 cls).comp ((writesTo_u32 ttl).comp
        ((writesTo_u16 len).comp (writesTo_bytes (ipv4Octets addr))))))
    exact this.wcongr (by simp [encRecord, List.append_assoc])
  | NS name qt cls ttl len host =>
    simp only [validRecord, Bool.and_eq_true, decide_eq_true_eq] at h
    obtain ⟨⟨⟨⟨⟨hvn, hvh⟩, _⟩, _⟩, _⟩, _⟩ := h
    have := (writesTo_qname name (validName_labels_short hvn)).comp
      ((writesTo_u16 qt.to_num).comp ((writesTo_u16 cls).comp ((writesTo_u32 ttl).comp
        ((writesTo_u16 len).comp (writesTo_qname host (validName_labels_short hvh))))))
    exact this.wcongr (by simp [encRecord, List.append_assoc])
  | CNAME name qt cls ttl len host =>
    simp only [validRecord, Bool.and_eq_true, decide_eq_true_eq] at h
    obtain ⟨⟨⟨⟨⟨hvn, hvh⟩, _⟩, _⟩, _⟩, _⟩ := h
    have := (writesTo_qname name (validName_labels_short hvn)).comp
      ((writesTo_u16 qt.to_num).comp ((writesTo_u16 cls).comp ((writesTo_u32 ttl).comp
        ((writesTo_u16 len).comp (writesTo_qname host (validName_labels_short hvh))))))
    exact this.wcongr (by simp [encRecord, List.append_assoc])
  | MX name qt cls ttl len priority host =>
    simp only [validRecord, Bool.and_eq_true, decide_eq_true_eq] at h
    obtain ⟨⟨⟨⟨⟨⟨hvn, hvh⟩, _⟩, _⟩, _⟩, _⟩, _⟩ := h
    have := (writesTo_qname name (validName_labels_short hvn)).comp
      ((writesTo_u16 qt.to_num).comp ((writesTo_u16 cls).comp ((writesTo_u32 ttl).comp
        ((writesTo_u16 len).comp ((writesTo_u16 priority).comp
          (writesTo_qname host (validName_labels_short hvh)))))))
    exact this.wcongr (by simp [encRecord, List.append_assoc])
  | AAAA name qt cls ttl len addr =>
    simp only [validRecord, Bool.and_eq_true, decide_eq_true_eq] at h
    obtain ⟨⟨⟨⟨⟨⟨hvn, _⟩, _⟩, _⟩, _⟩, _⟩, _⟩ := h
    have := (writesTo_qname name (validName_labels_short hvn)).comp
      ((writesTo_u16 qt.to_num).comp ((writesTo_u16 cls).comp ((writesTo_u32 ttl).comp
        ((writesTo_u16 len).comp (writesTo_u16_list addr)))))
    exact this.wcongr (by simp [encRecord, List.append_assoc])
  | SOA name qt cls ttl len mname rname serial refresh retry expire minimum =>
    simp only [validRecord, Bool.and_eq_true, decide_eq_true_eq] at h
    obtain ⟨⟨⟨⟨⟨⟨⟨⟨⟨⟨⟨hvn, hvm⟩, hvr⟩, _⟩, _⟩, _⟩, _⟩, _⟩, _⟩, _⟩, _⟩, _⟩ := h
    have := (writesTo_qname name (validName_labels_short hvn)).comp
      ((writesTo_u16 qt.to_num).comp ((writesTo_u16 cls).comp ((writesTo_u32 ttl).comp
        ((writesTo_u16 len).comp ((writesTo_qname mname
            (validName_labels_short hvm)).comp
          ((writesTo_qname rname (validName_labels_short hvr)).comp
            ((writesTo_u32 serial).comp ((writesTo_u32 refresh).comp
              ((writesTo_u32 retry).comp ((writesTo_u32 expire).comp
                (writesTo_u32 minimum)))))))))))
    exact this.wcongr (by simp [encRecord, List.append_assoc])

/-- `DNSHeader::write` emits the twelve header bytes. -/
theorem writesTo_header (h : DNSHeader) : WritesTo h.write (encHeader h) := by
  have := (writesTo_u16 h.id).comp ((writesTo_u16 h.packFlags).comp
    ((writesTo_u16 h.q_count).comp ((writesTo_u16 h.an_count).comp
      ((writesTo_u16 h.ns_count).comp (writesTo_u16 h.ad_count)))))
  exact this.wcongr (by simp [encHeader, List.append_assoc])

/-- A section writer emits the concatenation of its records' bytes. -/
theorem writesTo_list {α} {w : α → VecBuffer → Except Err VecBuffer}
    {enc : α → List Nat} (xs : List α) (h : ∀ x ∈ xs, WritesTo (w x) (enc x)) :
    WritesTo (writeList w xs) (xs.flatMap enc) := by
  induction xs with
  | nil =>
    intro B p
    simp [writeList, WritesTo]
  | cons x xs ih =>
    exact ((h x (by simp)).comp (ih (fun y hy => h y (by simp [hy])))).wcongr (by simp)

/-- The bytes and value of a reader can be rewritten along equalities. -/
theorem ReadsTo.rcongr {α} {f : VecBuffer → Except Err (α × VecBuffer)}
    {bs bs' : List Nat} {a a' : α} (h : ReadsTo f bs a) (he : bs = bs')
    (ha : a = a') : ReadsTo f bs' a' := he ▸ ha ▸ h

/-- The bytes and value of a step-indexed reader can be rewritten along
equalities. -/
theorem ReadsToF.fcongr {α} {f : VecBuffer → Option (Except Err (α × VecBuffer))}
    {bs bs' : List Nat} {a a' : α} (h : ReadsToF f bs a) (he : bs = bs')
    (ha : a = a') : ReadsToF f bs' a' := he ▸ ha ▸ h

/-- A reader that consumes nothing and returns `x`. -/
theorem readsTo_pure {α} (x : α) : ReadsTo (fun b => .ok (x, b)) [] x := by
  intro B p hlen htake
  simp

/-- A step-indexed reader that consumes nothing and returns `x`. -/
theorem readsToF_pure {α} (x : α) : ReadsToF (fun b => some (.ok (x, b))) [] x := by
  intro B p hlen htake
  simp

/-- Sequencing two plain readers concatenates their bytes. -/
theorem ReadsTo.seq {α β} {f : VecBuffer → Except Err (α × VecBuffer)}
    {g : α → VecBuffer → Except Err (β × VecBuffer)} {xs ys : List Nat} {a : α} {c : β}
    (hf : ReadsTo f xs a) (hg : ReadsTo (g a) ys c) :
    ReadsTo (fun s => rbind (f s) g) (xs ++ ys) c := by
  intro B p hlen htake
  rw [List.length_append] at hlen
  have h' : (B.drop p).take (xs.length + ys.length) = xs ++ ys := by
    simpa [List.length_append] using htake
  have hxs := take_split_left h' rfl
  have hys := drop_split_right h' rfl
  rw [List.drop_drop] at hys
  show rbind (f ⟨B, p⟩) g = _
  rw [hf B p (by omega) hxs]
  show g a ⟨B, p + xs.length⟩ = _
  rw [hg B (p + xs.length) (by omega) hys]
  simp [List.length_append, Nat.add_assoc]

/-- Sequencing a plain reader into a step-indexed continuation. -/
theorem ReadsTo.bind_f {α β} {f : VecBuffer → Except Err (α × VecBuffer)}
    {g : α → VecBuffer → Option (Except Err (β × VecBuffer))} {xs ys : List Nat}
    {a : α} {c : β} (hf : ReadsTo f xs a) (hg : ReadsToF (g a) ys c) :
    ReadsToF (fun s => ebind (f s) g) (xs ++ ys) c := by
  intro B p hlen htake
  rw [List.length_append] at hlen
  have h' : (B.drop p).take (xs.length + ys.length) = xs ++ ys := by
    simpa [List.length_append] using htake
  have hxs := take_split_left h' rfl
  have hys := drop_split_right h' rfl
  rw [List.drop_drop] at hys
  show ebind (f ⟨B, p⟩) g = _
  rw [hf B p (by omega) hxs]
  show g a ⟨B, p + xs.length⟩ = _
  rw [hg B (p + xs.length) (by omega) hys]
  simp [List.length_append, Nat.add_assoc]

/-- Sequencing two step-indexed readers concatenates their bytes. -/
theorem ReadsToF.fseq {α β} {f : VecBuffer → Option (Except Err (α × VecBuffer))}
    {g : α → VecBuffer → Option (Except Err (β × VecBuffer))} {xs ys : List Nat}
    {a : α} {c : β} (hf : ReadsToF f xs a) (hg : ReadsToF (g a) ys c) :
    ReadsToF (fun s => obind (f s) g) (xs ++ ys) c := by
  intro B p hlen htake
  rw [List.length_append] at hlen
  have h' : (B.drop p).take (xs.length + ys.length) = xs ++ ys := by
    simpa [List.length_append] using htake
  have hxs := take_split_left h' rfl
  have hys := drop_split_right h' rfl
  rw [List.drop_drop] at hys
  show obind (f ⟨B, p⟩) g = _
  rw [hf B p (by omega) hxs]
  show g a ⟨B, p + xs.length⟩ = _
  rw [hg B (p + xs.length) (by omega) hys]
  simp [List.length_append, Nat.add_assoc]

/-- `VecBuffer::read` reads the byte at the cursor. -/
theorem readsTo_read (v : Nat) : ReadsTo VecBuffer.read [v] v := by
  intro B p hlen htake
  have hb : B.getD p 0 = v := byte_at htake
  simp only [VecBuffer.read]
  rw [if_neg (by simp at hlen; omega)]
  rw [hb]
  rfl

/-- `read_u16` reads two bytes big-endian. -/
theorem readsTo_u16_raw (a b : Nat) : ReadsTo read_u16 [a, b] ((a <<< 8) ||| b) := by
  have h : ReadsTo read_u16 ([a] ++ ([b] ++ [])) ((a <<< 8) ||| b) :=
    (readsTo_read a).seq ((readsTo_read b).seq (readsTo_pure ((a <<< 8) ||| b)))
  exact h.rcongr (by simp) rfl

/-- `read_u16` recovers a u16 from the bytes `write_u16` emitted. -/
theorem readsTo_u16 (v : Nat) (hv : v < 65536) : ReadsTo read_u16 (enc16 v) v :=
  (readsTo_u16_raw ((v >>> 8) % 256) ((v &&& 0xFF) % 256)).rcongr rfl (u16_recompose v hv)

/-- `read_u32` recovers a u32 from the bytes `write_u32` emitted. -/
theorem readsTo_u32 (v : Nat) (hv : v < 4294967296) : ReadsTo read_u32 (enc32 v) v := by
  have h16a : (v >>> 16) % 65536 < 65536 := Nat.mod_lt _ (by norm_num)
  have h16b : (v &&& 0xFFFF) % 65536 < 65536 := Nat.mod_lt _ (by norm_num)
  have h : ReadsTo read_u32
      (enc16 ((v >>> 16) % 65536) ++ (enc16 ((v &&& 0xFFFF) % 65536) ++ []))
      ((((v >>> 16) % 65536) <<< 16) ||| ((v &&& 0xFFFF) % 65536)) :=
    (readsTo_u16 _ h16a).seq ((readsTo_u16 _ h16b).seq
      (readsTo_pure ((((v >>> 16) % 65536) <<< 16) ||| ((v &&& 0xFFFF) % 65536))))
  exact h.rcongr (by simp [enc32]) (u32_recompose v hv)

/-- `DNSHeader::read` recovers a valid header from `encHeader`. -/
theorem readsTo_header (h : DNSHeader) (hv : validHeader h = true) :
    ReadsTo DNSHeader.read (encHeader h) h := by
  simp only [validHeader, Bool.and_eq_true, decide_eq_true_eq] at hv
  obtain ⟨⟨⟨⟨⟨hid, hop⟩, hqc⟩, han⟩, hns⟩, had⟩ := hv
  have hfl := flags_unpack h.opcode hop h.res_code.to_num (rcode_to_num_lt _)
    h.query_response h.auth_answer h.truncated_msg h.recur_desired
    h.recur_available h.z_res
  have hw : h.packFlags < 65536 := hfl.1
  have R : ReadsTo DNSHeader.read
      (enc16 h.id ++ (enc16 h.packFlags ++ (enc16 h.q_count ++ (enc16 h.an_count ++
        (enc16 h.ns_count ++ (enc16 h.ad_count ++ []))))))
      (DNSHeader.mk h.id (decide (0 < h.packFlags &&& (1 <<< 15)))
        ((h.packFlags >>> 11) &&& 0xF) (decide (0 < h.packFlags &&& (1 <<< 10)))
        (decide (0 < h.packFlags &&& (1 <<< 9))) (decide (0 < h.packFlags &&& (1 <<< 8)))
        (decide (0 < h.packFlags &&& (1 <<< 7))) (decide (0 < h.packFlags &&& (7 <<< 4)))
        (RCode.from_num (h.packFlags &&& 0xF)) h.q_count h.an_count h.ns_count
        h.ad_count) :=
    (readsTo_u16 h.id hid).seq ((readsTo_u16 h.packFlags hw).seq
      ((readsTo_u16 h.q_count hqc).seq ((readsTo_u16 h.an_count han).seq
        ((readsTo_u16 h.ns_count hns).seq ((readsTo_u16 h.ad_count had).seq
          (readsTo_pure _))))))
  refine R.rcongr (by simp [encHeader, List.append_assoc]) ?_
  obtain ⟨e1, e2, e3, e4, e5, e6, e7, e8⟩ := hfl.2
  rw [show h.packFlags = packF h.query_response h.opcode h.auth_answer
    h.truncated_msg h.recur_desired h.recur_available h.z_res h.res_code.to_num
    from rfl]
  rw [e1, e2, e3, e4, e5, e6, e7, e8, rcode_roundtrip]

/-- `splitDot` always produces at least one piece. -/
theorem splitDot_ne_nil (n : List Nat) : splitDot n ≠ [] := by
  cases n with
  | nil => simp [splitDot]
  | cons b rest =>
    by_cases hb : b = 46
    · simp [splitDot, hb]
    · simp only [splitDot, if_neg hb]
      rcases h : splitDot rest with _ | ⟨l, ls⟩ <;> simp

/-- Joining the pieces of a split recovers the original byte string. -/
theorem joinDot_splitDot (n : List Nat) : joinDot (splitDot n) = n := by
  induction n with
  | nil => rfl
  | cons b rest ih =>
    by_cases hb : b = 46
    · subst hb
      simp only [splitDot, if_pos rfl]
      rcases h : splitDot rest with _ | ⟨l, ls⟩
      · exact absurd h (splitDot_ne_nil rest)
      · rw [h] at ih
        simp only [joinDot, List.flatMap_cons, List.nil_append] at ih ⊢
        rw [← ih]
        simp [joinDot]
    · simp only [splitDot, if_neg hb]
      rcases h : splitDot rest with _ | ⟨l, ls⟩
      · exact absurd h (splitDot_ne_nil rest)
      · rw [h] at ih
        simp only [joinDot, List.cons_append] at ih ⊢
        rw [ih]

/-- Lowercasing leaves a list of `okByte`s untouched. -/
theorem lowerBytes_id {l : List Nat} (h : ∀ b ∈ l, okByte b = true) :
    lowerBytes l = l := by
  induction l with
  | nil => rfl
  | cons x xs ih =>
    have hx := h x (by simp)
    simp only [okByte, Bool.and_eq_true, Bool.not_eq_eq_eq_not, Bool.not_true,
      decide_eq_true_eq] at hx
    have : lowerByte x = x := by
      unfold lowerByte
      rw [if_neg]
      intro hc
      have := hx.2
      simp [hc.1, hc.2] at this
    simp only [lowerBytes, List.map_cons, this]
    have := ih (fun b hb => h b (by simp [hb]))
    simpa [lowerBytes] using this

/-- A label length (≤ 63) never looks like a compression pointer. -/
theorem and192_small : ∀ x, x < 64 → x &&& 192 = 0 := by decide

/-- Peeling one label off the label encoding. -/
theorem encLabels_cons (l : List Nat) (ls : List (List Nat)) :
    encLabels (l :: ls) = (l.length :: l) ++ encLabels ls := by
  simp [encLabels, List.append_assoc]

/-- The label loop of `read_qname` over the pointer-free encoding of a list
of valid labels: it consumes the encoding and accumulates the labels
(dot-separated per the delimiter latch). -/
theorem read_qname_go_reads (ls : List (List Nat)) :
    ∀ (B : List Nat) (p fuel bpos : Nat) (delim : Bool) (acc : List Nat),
    (∀ l ∈ ls, validLabel l = true) →
    ls.length + 1 ≤ fuel →
    p + (encLabels ls).length ≤ B.length →
    (B.drop p).take (encLabels ls).length = encLabels ls →
    read_qname_go B fuel bpos p false delim acc =
      some (.ok (delimJoin delim acc ls, p + (encLabels ls).length)) := by
  induction ls with
  | nil =>
    intro B p fuel bpos delim acc _ hfuel hlen htake
    obtain ⟨f, rfl⟩ : ∃ f, fuel = f + 1 := ⟨fuel - 1, by omega⟩
    simp only [encLabels, List.flatMap_nil, List.nil_append, List.length_cons,
      List.length_nil] at hlen htake ⊢
    have hb : B.getD p 0 = 0 := byte_at htake
    show read_qname_go B (f + 1) bpos p false delim acc = _
    simp only [read_qname_go, hb]
    rw [if_neg (show ¬ B.length ≤ p by omega)]
    rw [if_neg (show ¬ ((0 : Nat) &&& 0xC0 = 0xC0) by decide)]
    simp [delimJoin, joinDot, show ¬ B.length < p + 1 from by omega]
  | cons l ls ih =>
    intro B p fuel bpos delim acc hval hfuel hlen htake
    obtain ⟨f, rfl⟩ : ∃ f, fuel = f + 1 := ⟨fuel - 1, by omega⟩
    have hl := hval l (by simp)
    simp only [validLabel, Bool.and_eq_true, decide_eq_true_eq] at hl
    obtain ⟨⟨hne, hlen63⟩, hok⟩ := hl
    have hlne : l ≠ [] := by simpa using hne
    have hlpos : 0 < l.length := List.length_pos.mpr hlne
    have hEl : (encLabels (l :: ls)).length =
        (1 + l.length) + (encLabels ls).length := by
      simp [encLabels_cons]
      omega
    have htake' : (B.drop p).take ((1 + l.length) + (encLabels ls).length) =
        ([l.length] ++ l) ++ encLabels ls := by
      rw [← hEl, htake, encLabels_cons]
      rfl
    have hlen' : p + ((1 + l.length) + (encLabels ls).length) ≤ B.length := by
      omega
    have hfirst : (B.drop p).take (1 + l.length) = [l.length] ++ l :=
      take_split_left htake' (by simp; omega)
    have hrest0 : ((B.drop p).drop (1 + l.length)).take (encLabels ls).length =
        encLabels ls := drop_split_right htake' (by simp; omega)
    rw [List.drop_drop] at hrest0
    have hb : B.getD p 0 = l.length :=
      byte_at (take_split_left hfirst rfl)
    have hlab0 := drop_split_right hfirst rfl
    rw [List.drop_drop] at hlab0
    show read_qname_go B (f + 1) bpos p false delim acc = _
    simp only [read_qname_go, hb]
    rw [if_neg (show ¬ B.length ≤ p by omega)]
    rw [if_neg (by rw [and192_small l.length (by omega)]; decide)]
    rw [if_neg (show ¬ (l.length = 0) by omega)]
    rw [if_neg (show ¬ B.length ≤ p + 1 by omega)]
    rw [if_neg (show ¬ B.length < p + 1 + l.length by omega)]
    rw [show p + 1 = p + (1 + 0) from by omega] at hlab0
    rw [show p + (1 + 0) = p + 1 from by omega] at hlab0
    rw [hlab0, lowerBytes_id (List.all_eq_true.mp hok)]
    have := ih B (p + 1 + l.length) f bpos true
      ((if delim then acc ++ [46] else acc) ++ l)
      (fun x hx => hval x (by simp [hx]))
      (by simp at hfuel; omega)
      (by rw [show p + 1 + l.length = p + (1 + l.length) by omega]; omega)
      (by rw [show p + 1 + l.length = p + (1 + l.length) by omega]; exact hrest0)
    rw [this]
    have hname : delimJoin true ((if delim then acc ++ [46] else acc) ++ l) ls =
        delimJoin delim acc (l :: ls) := by
      cases delim <;> simp [delimJoin, joinDot, List.append_assoc]
    rw [hname, hEl]
    have : p + 1 + l.length + (encLabels ls).length =
        p + ((1 + l.length) + (encLabels ls).length) := by omega
    rw [this]

/-- `read_qname` recovers a valid name from the bytes `write_qname`
emitted, given enough fuel. -/
theorem readsToF_qname (n : List Nat) (hv : validName n = true) (fuel : Nat)
    (hf : nameFuel n ≤ fuel) : ReadsToF (read_qname fuel) (encName n) n := by
  intro B p hlen htake
  have hgo := read_qname_go_reads (splitDot n) B p fuel p false []
    (List.all_eq_true.mp hv)
    (by simp only [nameFuel] at hf; omega)
    hlen htake
  simp only [read_qname]
  rw [hgo]
  simp [delimJoin, joinDot_splitDot n, encName]

/-- Masking with 0xFF is reduction mod 256. -/
theorem and255 (x : Nat) : x &&& 0xFF = x % 256 := by
  have := Nat.and_pow_two_sub_one_eq_mod x 8
  norm_num at this
  exact this

/-- Masking with 0xFFFF is reduction mod 65536. -/
theorem and65535 (x : Nat) : x &&& 0xFFFF = x % 65536 := by
  have := Nat.and_pow_two_sub_one_eq_mod x 16
  norm_num at this
  exact this

/-- The bytes of `enc32 v`, written with shifts and remainders. -/
theorem enc32_bytes (v : Nat) :
    enc32 v = [(v >>> 24) % 256, (v >>> 16) % 256, (v >>> 8) % 256, v % 256] := by
  simp only [enc32, enc16, and255, and65535, Nat.shiftRight_eq_div_pow,
    List.cons_append, List.nil_append, List.cons.injEq, and_true]
  norm_num
  omega

/-- The four A-record octets are exactly the four bytes of the u32. -/
theorem octets_eq_enc32 (v : Nat) : ipv4Octets v = enc32 v := by
  rw [enc32_bytes]
  rfl

/-- Rebuilding an address from its four octets is the identity below 2^32. -/
theorem ipv4FromU32_id (v : Nat) (hv : v < 4294967296) : ipv4FromU32 v = v := by
  simp only [ipv4FromU32, Nat.shiftRight_eq_div_pow]
  norm_num
  omega

/-- `enc32` of a packed pair of u16 values is the two `enc16`s. -/
theorem enc32_pair (a b : Nat) (ha : a < 65536) (hb : b < 65536) :
    enc32 (a * 65536 + b) = enc16 a ++ enc16 b := by
  simp only [enc32, and65535]
  rw [show (a * 65536 + b) >>> 16 = a by
    rw [Nat.shiftRight_eq_div_pow]; norm_num; omega]
  rw [show (a * 65536 + b) % 65536 = b by omega]
  rw [Nat.mod_eq_of_lt ha, Nat.mod_eq_of_lt hb]

/-- High u16 of a packed pair. -/
theorem seg_hi (a b : Nat) (ha : a < 65536) (hb : b < 65536) :
    ((a * 65536 + b) >>> 16) % 65536 = a := by
  rw [Nat.shiftRight_eq_div_pow]
  norm_num
  omega

/-- Low u16 of a packed pair. -/
theorem seg_lo (a b : Nat) (hb : b < 65536) : (a * 65536 + b) % 65536 = b := by
  omega

/-- The AAAA segment extraction undoes the packing of the four u32 reads. -/
theorem ipv6Segments_pairs (s0 s1 s2 s3 s4 s5 s6 s7 : Nat)
    (h0 : s0 < 65536) (h1 : s1 < 65536) (h2 : s2 < 65536) (h3 : s3 < 65536)
    (h4 : s4 < 65536) (h5 : s5 < 65536) (h6 : s6 < 65536) (h7 : s7 < 65536) :
    ipv6Segments (s0 * 65536 + s1) (s2 * 65536 + s3) (s4 * 65536 + s5)
      (s6 * 65536 + s7) = [s0, s1, s2, s3, s4, s5, s6, s7] := by
  simp only [ipv6Segments, seg_hi _ _ h0 h1, seg_lo _ _ h1, seg_hi _ _ h2 h3,
    seg_lo _ _ h3, seg_hi _ _ h4 h5, seg_lo _ _ h5, seg_hi _ _ h6 h7, seg_lo _ _ h7]

/-- Every element is bounded by the maximum fold. -/
theorem le_foldr_max {l : List Nat} {x : Nat} (hx : x ∈ l) : x ≤ l.foldr max 0 := by
  induction l with
  | nil => cases hx
  | cons y ys ih =>
    rcases List.mem_cons.mp hx with rfl | hx'
    · exact Nat.le_max_left _ _
    · exact Nat.le_trans (ih hx') (Nat.le_max_right _ _)

/-- `DNSQuestion::read` recovers a valid question from `encQuestion`. -/
theorem readsToF_question (q : DNSQuestion) (hv : validQuestion q = true) (fuel : Nat)
    (hf : nameFuel q.name ≤ fuel) : ReadsToF (DNSQuestion.read fuel) (encQuestion q) q := by
  simp only [validQuestion, Bool.and_eq_true] at hv
  have ht := querytype_to_num_lt q.q_type hv.2
  have R : ReadsToF (DNSQuestion.read fuel)
      (encName q.name ++ (enc16 q.q_type.to_num ++ (enc16 1 ++ [])))
      ({ name := q.name, q_type := QueryType.from_num q.q_type.to_num } : DNSQuestion) :=
    (readsToF_qname q.name hv.1 fuel hf).fseq
      ((readsTo_u16 _ ht).bind_f ((readsTo_u16 1 (by norm_num)).bind_f (readsToF_pure _)))
  refine R.fcongr (by simp [encQuestion, List.append_assoc]) ?_
  rw [querytype_roundtrip _ hv.2]

/-- `DNSRecord::read` recovers a valid record from `encRecord`, given enough
fuel for its names.  In particular the A and AAAA arms succeed for **every**
rdlength `len < 2^16` — the decoder never compares `len` with 4 or 16. -/
theorem readsToF_record (r : DNSRecord) (hv : validRecord r = true) (fuel : Nat)
    (hf : ∀ nm ∈ recordNames r, nameFuel nm ≤ fuel) :
    ReadsToF (DNSRecord.read fuel) (encRecord r) r := by
  cases r with
  | UNKNOWN name qt cls ttl len => simp [validRecord] at hv
  | A name qt cls ttl len addr =>
    simp only [validRecord, Bool.and_eq_true, decide_eq_true_eq] at hv
    obtain ⟨⟨⟨⟨⟨hvn, hqt⟩, hcls⟩, httl⟩, hlen⟩, haddr⟩ := hv
    subst hqt
    have R : ReadsToF (DNSRecord.read fuel)
        (encName name ++ (enc16 (QueryType.to_num .A) ++ (enc16 cls ++ (enc32 ttl ++
          (enc16 len ++ (ipv4Octets addr ++ []))))))
        (.A name .A cls ttl len (ipv4FromU32 addr)) :=
      (readsToF_qname name hvn fuel (hf name (by simp [recordNames]))).fseq
        ((readsTo_u16 _ (by decide)).bind_f ((readsTo_u16 cls hcls).bind_f
          ((readsTo_u32 ttl httl).bind_f ((readsTo_u16 len hlen).bind_f
            (((readsTo_u32 addr haddr).rcongr (octets_eq_enc32 addr).symm rfl).bind_f
              (readsToF_pure _))))))
    refine R.fcongr (by simp [encRecord, List.append_assoc]) ?_
    rw [ipv4FromU32_id addr haddr]
  | NS name qt cls ttl len host =>
    simp only [validRecord, Bool.and_eq_true, decide_eq_true_eq] at hv
    obtain ⟨⟨⟨⟨⟨hvn, hvh⟩, hqt⟩, hcls⟩, httl⟩, hlen⟩ := hv
    subst hqt
    have R : ReadsToF (DNSRecord.read fuel)
        (encName name ++ (enc16 (QueryType.to_num .NS) ++ (enc16 cls ++ (enc32 ttl ++
          (enc16 len ++ (encName host ++ []))))))
        (.NS name .NS cls ttl len host) :=
      (readsToF_qname name hvn fuel (hf name (by simp [recordNames]))).fseq
        ((readsTo_u16 _ (by decide)).bind_f ((readsTo_u16 cls hcls).bind_f
          ((readsTo_u32 ttl httl).bind_f ((readsTo_u16 len hlen).bind_f
            ((readsToF_qname host hvh fuel (hf host (by simp [recordNames]))).fseq
              (readsToF_pure _))))))
    exact R.fcongr (by simp [encRecord, List.append_assoc]) rfl
  | CNAME name qt cls ttl len host =>
    simp only [validRecord, Bool.and_eq_true, decide_eq_true_eq] at hv
    obtain ⟨⟨⟨⟨⟨hvn, hvh⟩, hqt⟩, hcls⟩, httl⟩, hlen⟩ := hv
    subst hqt
    have R : ReadsToF (DNSRecord.read fuel)
        (encName name ++ (enc16 (QueryType.to_num .CNAME) ++ (enc16 cls ++ (enc32 ttl ++
          (enc16 len ++ (encName host ++ []))))))
        (.CNAME name .CNAME cls ttl len host) :=
      (readsToF_qname name hvn fuel (hf name (by simp [recordNames]))).fseq
        ((readsTo_u16 _ (by decide)).bind_f ((readsTo_u16 cls hcls).bind_f
          ((readsTo_u32 ttl httl).bind_f ((readsTo_u16 len hlen).bind_f
            ((readsToF_qname host hvh fuel (hf host (by simp [recordNames]))).fseq
              (readsToF_pure _))))))
    exact R.fcongr (by simp [encRecord, List.append_assoc]) rfl
  | MX name qt cls ttl len priority host =>
    simp only [validRecord, Bool.and_eq_true, decide_eq_true_eq] at hv
    obtain ⟨⟨⟨⟨⟨⟨hvn, hvh⟩, hqt⟩, hcls⟩, httl⟩, hlen⟩, hpr⟩ := hv
    subst hqt
    have R : ReadsToF (DNSRecord.read fuel)
        (encName name ++ (enc16 (QueryType.to_num .MX) ++ (enc16 cls ++ (enc32 ttl ++
          (enc16 len ++ (enc16 priority ++ (encName host ++ [])))))))
        (.MX name .MX cls ttl len priority host) :=
      (readsToF_qname name hvn fuel (hf name (by simp [recordNames]))).fseq
        ((readsTo_u16 _ (by decide)).bind_f ((readsTo_u16 cls hcls).bind_f
          ((readsTo_u32 ttl httl).bind_f ((readsTo_u16 len hlen).bind_f
            ((readsTo_u16 priority hpr).bind_f
              ((readsToF_qname host hvh fuel (hf host (by simp [recordNames]))).fseq
                (readsToF_pure _)))))))
    exact R.fcongr (by simp [encRecord, List.append_assoc]) rfl
  | AAAA name qt cls ttl len addr =>
    simp only [validRecord, Bool.and_eq_true, decide_eq_true_eq] at hv
    obtain ⟨⟨⟨⟨⟨⟨hvn, hqt⟩, hcls⟩, httl⟩, hlen⟩, hlen8⟩, hall⟩ := hv
    subst hqt
    obtain ⟨s0, s1, s2, s3, s4, s5, s6, s7, rfl⟩ :
        ∃ s0 s1 s2 s3 s4 s5 s6 s7, addr = [s0, s1, s2, s3, s4, s5, s6, s7] := by
      rcases addr with _ | ⟨s0, _ | ⟨s1, _ | ⟨s2, _ | ⟨s3, _ | ⟨s4, _ | ⟨s5, _ |
        ⟨s6, _ | ⟨s7, _ | ⟨s8, t⟩⟩⟩⟩⟩⟩⟩⟩⟩ <;> simp at hlen8
      exact ⟨s0, s1, s2, s3, s4, s5, s6, s7, rfl⟩
    have hb := List.all_eq_true.mp hall
    simp only [List.mem_cons, List.not_mem_nil, or_false, decide_eq_true_eq] at hb
    have h0 : s0 < 65536 := hb s0 (by tauto)
    have h1 : s1 < 65536 := hb s1 (by tauto)
    have h2 : s2 < 65536 := hb s2 (by tauto)
    have h3 : s3 < 65536 := hb s3 (by tauto)
    have h4 : s4 < 65536 := hb s4 (by tauto)
    have h5 : s5 < 65536 := hb s5 (by tauto)
    have h6 : s6 < 65536 := hb s6 (by tauto)
    have h7 : s7 < 65536 := hb s7 (by tauto)
    have R : ReadsToF (DNSRecord.read fuel)
        (encName name ++ (enc16 (QueryType.to_num .AAAA) ++ (enc16 cls ++ (enc32 ttl ++
          (enc16 len ++ ((enc16 s0 ++ enc16 s1) ++ ((enc16 s2 ++ enc16 s3) ++
            ((enc16 s4 ++ enc16 s5) ++ ((enc16 s6 ++ enc16 s7) ++ [])))))))))
        (.AAAA name .AAAA cls ttl len
          (ipv6Segments (s0 * 65536 + s1) (s2 * 65536 + s3) (s4 * 65536 + s5)
            (s6 * 65536 + s7))) :=
      (readsToF_qname name hvn fuel (hf name (by simp [recordNames]))).fseq
        ((readsTo_u16 _ (by decide)).bind_f ((readsTo_u16 cls hcls).bind_f
          ((readsTo_u32 ttl httl).bind_f ((readsTo_u16 len hlen).bind_f
            (((readsTo_u32 _ (by omega)).rcongr (enc32_pair s0 s1 h0 h1) rfl).bind_f
              (((readsTo_u32 _ (by omega)).rcongr (enc32_pair s2 s3 h2 h3) rfl).bind_f
                (((readsTo_u32 _ (by omega)).rcongr (enc32_pair s4 s5 h4 h5) rfl).bind_f
                  (((readsTo_u32 _ (by omega)).rcongr (enc32_pair s6 s7 h6 h7) rfl).bind_f
                    (readsToF_pure _)))))))))
    refine R.fcongr (by simp [encRecord, List.append_assoc]) ?_
    rw [ipv6Segments_pairs s0 s1 s2 s3 s4 s5 s6 s7 h0 h1 h2 h3 h4 h5 h6 h7]
  | SOA name qt cls ttl len mname rname serial refresh retry expire minimum =>
    simp only [validRecord, Bool.and_eq_true, decide_eq_true_eq] at hv
    obtain ⟨⟨⟨⟨⟨⟨⟨⟨⟨⟨⟨hvn, hvm⟩, hvr⟩, hqt⟩, hcls⟩, httl⟩, hlen⟩, hse⟩, hre⟩, hrt⟩,
      hex⟩, hmi⟩ := hv
    subst hqt
    have R : ReadsToF (DNSRecord.read fuel)
        (encName name ++ (enc16 (QueryType.to_num .SOA) ++ (enc16 cls ++ (enc32 ttl ++
          (enc16 len ++ (encName mname ++ (encName rname ++ (enc32 serial ++
            (enc32 refresh ++ (enc32 retry ++ (enc32 expire ++
              (enc32 minimum ++ []))))))))))))
        (.SOA name .SOA cls ttl len mname rname serial refresh retry expire minimum) :=
      (readsToF_qname name hvn fuel (hf name (by simp [recordNames]))).fseq
        ((readsTo_u16 _ (by decide)).bind_f ((readsTo_u16 cls hcls).bind_f
          ((readsTo_u32 ttl httl).bind_f ((readsTo_u16 len hlen).bind_f
            ((readsToF_qname mname hvm fuel (hf mname (by simp [recordNames]))).fseq
              ((readsToF_qname rname hvr fuel (hf rname (by simp [recordNames]))).fseq
                ((readsTo_u32 serial hse).bind_f ((readsTo_u32 refresh hre).bind_f
                  ((readsTo_u32 retry hrt).bind_f ((readsTo_u32 expire hex).bind_f
                    ((readsTo_u32 minimum hmi).bind_f (readsToF_pure _))))))))))))
    exact R.fcongr (by simp [encRecord, List.append_assoc]) rfl

/-- The counted section loop of `from_buffer` reads back a list of items
whose encodings it is pointed at. -/
theorem readsToF_listN {α} {read1 : VecBuffer → Option (Except Err (α × VecBuffer))}
    {enc : α → List Nat} (xs : List α) (h : ∀ x ∈ xs, ReadsToF read1 (enc x) x) :
    ReadsToF (readListN read1 xs.length) (xs.flatMap enc) xs := by
  induction xs with
  | nil => exact (readsToF_pure ([] : List α)).fcongr (by simp) rfl
  | cons x xs ih =>
    have R : ReadsToF (readListN read1 (x :: xs).length)
        (enc x ++ (xs.flatMap enc ++ [])) (x :: xs) :=
      (h x (by simp)).fseq ((ih (fun y hy => h y (by simp [hy]))).fseq (readsToF_pure _))
    exact R.fcongr (by simp) rfl

/-- Synchronising the header counts of a valid packet changes nothing. -/
theorem syncCounts_eq (p : DNSPacket) (hv : validPacket p = true) :
    p.syncCounts = p := by
  simp only [validPacket, Bool.and_eq_true, decide_eq_true_eq] at hv
  obtain ⟨⟨⟨⟨⟨⟨⟨⟨hh, _⟩, _⟩, _⟩, _⟩, hq⟩, ha⟩, hn⟩, hd⟩ := hv
  simp only [validHeader, Bool.and_eq_true, decide_eq_true_eq] at hh
  obtain ⟨⟨⟨⟨⟨_, _⟩, hqc⟩, hac⟩, hnc⟩, hdc⟩ := hh
  have e1 : p.questions.length % 65536 = p.header.q_count := by
    rw [← hq]; exact Nat.mod_eq_of_lt hqc
  have e2 : p.answers.length % 65536 = p.header.an_count := by
    rw [← ha]; exact Nat.mod_eq_of_lt hac
  have e3 : p.authority.length % 65536 = p.header.ns_count := by
    rw [← hn]; exact Nat.mod_eq_of_lt hnc
  have e4 : p.addtional.length % 65536 = p.header.ad_count := by
    rw [← hd]; exact Nat.mod_eq_of_lt hdc
  simp only [DNSPacket.syncCounts, e1, e2, e3, e4]

/-- `DNSPacket::write` into a fresh growable buffer emits `encPacket` and
returns the (already count-consistent) packet unchanged. -/
theorem write_packet (p : DNSPacket) (hv : validPacket p = true) :
    DNSPacket.write p VecBuffer.new = .ok (p, ⟨encPacket p, (encPacket p).length⟩) := by
  have hv' := hv
  simp only [validPacket, Bool.and_eq_true, decide_eq_true_eq] at hv'
  obtain ⟨⟨⟨⟨⟨⟨⟨⟨_, hvq⟩, hva⟩, hvu⟩, hvd⟩, _⟩, _⟩, _⟩, _⟩ := hv'
  have hsync := syncCounts_eq p hv
  have W : WritesTo (fun b =>
      wbind (p.header.write b) fun b =>
      wbind (writeList DNSQuestion.write p.questions b) fun b =>
      wbind (writeList DNSRecord.write p.answers b) fun b =>
      wbind (writeList DNSRecord.write p.authority b) fun b =>
      writeList DNSRecord.write p.addtional b)
      (encHeader p.header ++ (p.questions.flatMap encQuestion ++
        (p.answers.flatMap encRecord ++ (p.authority.flatMap encRecord ++
          p.addtional.flatMap encRecord)))) :=
    (writesTo_header p.header).comp
      ((writesTo_list p.questions
          (fun q hq => writesTo_question q ((List.all_eq_true.mp hvq) q hq))).comp
        ((writesTo_list p.answers
            (fun r hr => writesTo_record r ((List.all_eq_true.mp hva) r hr))).comp
          ((writesTo_list p.authority
              (fun r hr => writesTo_record r ((List.all_eq_true.mp hvu) r hr))).comp
            (writesTo_list p.addtional
              (fun r hr => writesTo_record r ((List.all_eq_true.mp hvd) r hr))))))
  simp only [DNSPacket.write, hsync, VecBuffer.new]
  rw [show (wbind (p.header.write (⟨[], 0⟩ : VecBuffer)) fun b =>
      wbind (writeList DNSQuestion.write p.questions b) fun b =>
      wbind (writeList DNSRecord.write p.answers b) fun b =>
      wbind (writeList DNSRecord.write p.authority b) fun b =>
      writeList DNSRecord.write p.addtional b) =
    .ok ⟨[] ++ (encHeader p.header ++ (p.questions.flatMap encQuestion ++
      (p.answers.flatMap encRecord ++ (p.authority.flatMap encRecord ++
        p.addtional.flatMap encRecord)))),
      0 + (encHeader p.header ++ (p.questions.flatMap encQuestion ++
      (p.answers.flatMap encRecord ++ (p.authority.flatMap encRecord ++
        p.addtional.flatMap encRecord)))).length⟩ from W [] 0]
  have : encHeader p.header ++ (p.questions.flatMap encQuestion ++
      (p.answers.flatMap encRecord ++ (p.authority.flatMap encRecord ++
        p.addtional.flatMap encRecord))) = encPacket p := by
    simp [encPacket, hsync, List.append_assoc]
  simp [this]

/-- `DNSPacket::from_buffer` recovers a valid packet from its own encoding. -/
theorem readsToF_packet (p : DNSPacket) (hv : validPacket p = true) (fuel : Nat)
    (hfuel : packetFuel p ≤ fuel) :
    ReadsToF (DNSPacket.from_buffer fuel) (encPacket p) p := by
  have hv' := hv
  simp only [validPacket, Bool.and_eq_true, decide_eq_true_eq] at hv'
  obtain ⟨⟨⟨⟨⟨⟨⟨⟨hvh, hvq⟩, hva⟩, hvu⟩, hvd⟩, hq⟩, ha⟩, hn⟩, hd⟩ := hv'
  have hfq : ∀ q ∈ p.questions, ReadsToF (DNSQuestion.read fuel) (encQuestion q) q := by
    intro q hqm
    refine readsToF_question q ((List.all_eq_true.mp hvq) q hqm) fuel ?_
    refine Nat.le_trans (le_foldr_max ?_) hfuel
    refine List.mem_map_of_mem _ ?_
    simp only [packetNames, List.mem_append, List.mem_map, List.mem_flatMap]
    exact Or.inl ⟨q, hqm, rfl⟩
  have hfr : ∀ (r : DNSRecord), r ∈ p.answers ++ p.authority ++ p.addtional →
      validRecord r = true → ReadsToF (DNSRecord.read fuel) (encRecord r) r := by
    intro r hrm hrv
    refine readsToF_record r hrv fuel ?_
    intro nm hnm
    refine Nat.le_trans (le_foldr_max ?_) hfuel
    refine List.mem_map_of_mem _ ?_
    simp only [packetNames, List.mem_append, List.mem_flatMap]
    right
    refine ⟨r, ?_, hnm⟩
    simpa only [List.mem_append] using hrm
  have hA : ∀ r ∈ p.answers, ReadsToF (DNSRecord.read fuel) (encRecord r) r :=
    fun r hr => hfr r (by simp only [List.mem_append]; tauto)
      ((List.all_eq_true.mp hva) r hr)
  have hU : ∀ r ∈ p.authority, ReadsToF (DNSRecord.read fuel) (encRecord r) r :=
    fun r hr => hfr r (by simp only [List.mem_append]; tauto)
      ((List.all_eq_true.mp hvu) r hr)
  have hD : ∀ r ∈ p.addtional, ReadsToF (DNSRecord.read fuel) (encRecord r) r :=
    fun r hr => hfr r (by simp only [List.mem_append]; tauto)
      ((List.all_eq_true.mp hvd) r hr)
  have R : ReadsToF (DNSPacket.from_buffer fuel)
      (encHeader p.header ++ (p.questions.flatMap encQuestion ++
        (p.answers.flatMap encRecord ++ (p.authority.flatMap encRecord ++
          (p.addtional.flatMap encRecord ++ [])))))
      (DNSPacket.mk p.header p.questions p.answers p.authority p.addtional) :=
    (readsTo_header p.header hvh).bind_f
      ((hq.symm ▸ readsToF_listN p.questions hfq).fseq
        ((ha.symm ▸ readsToF_listN p.answers hA).fseq
          ((hn.symm ▸ readsToF_listN p.authority hU).fseq
            ((hd.symm ▸ readsToF_listN p.addtional hD).fseq
              (readsToF_pure _)))))
  refine R.fcongr ?_ rfl
  simp [encPacket, syncCounts_eq p hv, List.append_assoc]

/-- Probing the key just stored: the inserted entry is found and filtered. -/
theorem get_records_after_set (c : DNSCache) (qname : List Nat) (qt : QueryType)
    (p : DNSPacket) (t now : Nat) :
    (c.set_records qname qt p t).get_records qname qt now =
      (if ((p.answers ++ p.authority ++ p.addtional).filter fun record =>
            decide (now - t < record.get_ttl * 1000000000)).length = 0 then none
       else some { DNSPacket.new with
              answers := ((p.answers ++ p.authority ++ p.addtional).filter fun record =>
                decide (now - t < record.get_ttl * 1000000000)) }) := by
  unfold DNSCache.get_records DNSCache.set_records
  rw [if_pos rfl]

/-! ### Claim theorems -/

/-- C1: the claim says `read_qname` terminates on every input because a hop
cap bounds pointer follows.  The source has no hop cap: on the two-byte
buffer `[0xC0, 0x00]`, whose pointer targets its own position, the decode
loop never finishes — for every fuel bound the step-indexed embedding is
still running.  The claimed property is false of the code; the spec states
the evident intent (a loop guard), so this is a bug in the code. -/
theorem c1_read_qname_pointer_cycle_diverges (fuel : Nat) :
    read_qname fuel ⟨[192, 0], 0⟩ = none := by
  match fuel with
  | 0 => rfl
  | n + 1 =>
    have h192 : (192 : Nat) &&& 0xC0 = 0xC0 := by decide
    have hoff : (((192 : Nat) ^^^ 0xC0) <<< 8) ||| 0 = 0 := by decide
    simp only [read_qname]
    have : read_qname_go [192, 0] (n + 1) 0 0 false false [] =
        read_qname_go [192, 0] n 2 0 true false [] := by
      simp only [read_qname_go, List.length_cons, List.length_nil, List.getD]
      norm_num [h192, hoff]
    rw [this, read_qname_go_cycle]

/-- C2: the claim says the engine caps outer iterations (≈16) and recursion
depth (≈8) and returns SERVFAIL past the cap.  `recursive_lookup` has no
iteration counter, no depth counter and no `ResolutionLimit`: under the
self-delegating oracle it re-enters the loop with the same state forever, so
for every fuel bound the step-indexed engine is still running.  The claimed
property is false of the code; the spec states the evident intent, so this is
a bug in the code. -/
theorem c2_recursive_lookup_delegation_loop_diverges (fuel : Nat)
    (qname : List Nat) (q_type : QueryType) :
    recursive_lookup loopOracle fuel qname q_type = none := by
  have main : ∀ f (q : List Nat) (t : QueryType) (ns : Nat),
      lookupLoop loopOracle f q t ns = none := by
    intro f
    induction f with
    | zero => intro q t ns; rfl
    | succ n ih =>
      intro q t ns
      have hres : loopPacket.get_resolved_ns q = some rootHint := by
        simp [DNSPacket.get_resolved_ns, DNSPacket.get_ns, loopPacket,
          List.filterMap, List.filter, List.flatMap]
      show lookupLoop loopOracle (n + 1) q t ns = none
      simp only [lookupLoop, loopOracle]
      rw [if_neg (by simp [loopPacket]), if_neg (by simp [loopPacket, DNSHeader.new]), hres]
      simp [ih]
  exact main fuel qname q_type rootHint

/-- C3 counterexample: the claim promises a round trip for every
successfully decoded message, but a message carrying an UNKNOWN-type record
breaks it: the 25-byte message decodes fine (one answer of type 99), yet
`DNSPacket::write` silently drops the UNKNOWN record while still writing
`an_count = 1`, so re-decoding the 12 emitted header bytes fails with a
buffer overrun instead of returning the packet. -/
theorem c3_unknown_record_breaks_roundtrip :
    DNSPacket.from_buffer 8 ⟨unkMsgBytes, 0⟩ =
      some (.ok (unkPacket, ⟨unkMsgBytes, 25⟩)) ∧
    DNSPacket.write unkPacket VecBuffer.new =
      .ok (unkPacket, ⟨[0, 0, 0, 0, 0, 0, 0, 1, 0, 0, 0, 0], 12⟩) ∧
    DNSPacket.from_buffer 8 ⟨[0, 0, 0, 0, 0, 0, 0, 1, 0, 0, 0, 0], 0⟩ =
      some (.error .bufferOverflow) := by
  refine ⟨rfl, rfl, rfl⟩

/-- C3 (amended): the round trip does hold for every packet that contains no
UNKNOWN record and whose names are sequences of 1-63-byte labels of
lowercase-stable ASCII bytes with counts matching the sections — which is
exactly the shape of well-formed decodable messages.  Encoding such a packet
into a fresh growable buffer and decoding those bytes returns the identical
packet (header, questions and all three record sections). -/
theorem c3_round_trip (p : DNSPacket) (hv : validPacket p = true) (fuel : Nat)
    (hfuel : packetFuel p ≤ fuel) :
    DNSPacket.write p VecBuffer.new = .ok (p, ⟨encPacket p, (encPacket p).length⟩) ∧
    DNSPacket.from_buffer fuel ⟨encPacket p, 0⟩ =
      some (.ok (p, ⟨encPacket p, (encPacket p).length⟩)) := by
  refine ⟨write_packet p hv, ?_⟩
  have R := readsToF_packet p hv fuel hfuel (encPacket p) 0 (by simp) (by simp)
  simpa using R

/-- C3 witness: the round trip at the concrete packet `rtPacket`
(id 6996, RD, one A question for "a"). -/
theorem c3_witness :
    (validPacket rtPacket = true ∧ packetFuel rtPacket ≤ 8) ∧
    (DNSPacket.write rtPacket VecBuffer.new =
       .ok (rtPacket, ⟨encPacket rtPacket, (encPacket rtPacket).length⟩) ∧
     DNSPacket.from_buffer 8 ⟨encPacket rtPacket, 0⟩ =
       some (.ok (rtPacket, ⟨encPacket rtPacket, (encPacket rtPacket).length⟩))) :=
  ⟨⟨by decide, by decide⟩, c3_round_trip rtPacket (by decide) 8 (by decide)⟩

/-- C4: the claim says out-of-bounds `get_range` and `set` return a
`BufferOverflow` error on both buffer flavours.  In the source,
`get_range` only checks the start position (a range that starts in bounds
but extends past the end is an unchecked slice — a Rust panic), and `set`
performs an entirely unchecked index assignment.  At these failing inputs
the code panics instead of returning an error value; the spec's error
taxonomy (`BufferOverflow` for reads/writes past bounds) states the evident
intent, so this is a bug in the code. -/
theorem c4_oob_set_get_range_panic :
    ArrayBuffer.set ⟨List.replicate 512 0, 0⟩ 512 7 = .error .indexOutOfRange ∧
    ArrayBuffer.get_range ⟨List.replicate 512 0, 0⟩ 508 8 = .error .indexOutOfRange ∧
    VecBuffer.set ⟨[1, 2, 3], 0⟩ 3 7 = .error .indexOutOfRange ∧
    VecBuffer.get_range ⟨[1, 2, 3], 0⟩ 2 5 = .error .indexOutOfRange := by
  refine ⟨?_, ?_, ?_, ?_⟩ <;> rfl

/-- C8 counterexample: the cache holds a live record set for ("a", A)
(cached at instant 0, probed at instant 0, TTL 100), yet the engine sends an
upstream query (the trace is non-empty) and returns the upstream answer,
which differs from the cached packet — the claimed cache probe does not
exist in `recursive_lookup`. -/
theorem c8_counterexample :
    c8Cache.get_records [97] .A 0 = some { DNSPacket.new with answers := [cachedARecord] } ∧
    recursive_lookup c8Oracle 5 [97] .A = some (.ok netPacket, [([97], .A, rootHint)]) ∧
    netPacket ≠ { DNSPacket.new with answers := [cachedARecord] } := by
  refine ⟨rfl, rfl, ?_⟩
  decide

/-- C8 (amended): the resolution engine never consults the cache.  Whatever
the cache contains, every completed `recursive_lookup` run opens by sending
its query upstream to the root hint 198.41.0.4: the trace of upstream
queries begins with `(qname, q_type, rootHint)` (in particular it is never
empty, so no query is ever answered purely from the cache). -/
theorem c8_engine_always_queries_root (oracle : Oracle) (fuel : Nat)
    (q : List Nat) (t : QueryType)
    (res : Except Err DNSPacket × List (List Nat × QueryType × Nat))
    (h : recursive_lookup oracle fuel q t = some res) :
    ∃ rest, res.2 = (q, t, rootHint) :: rest := by
  match fuel with
  | 0 => exact absurd h (by simp [recursive_lookup, lookupLoop])
  | n + 1 =>
    simp only [recursive_lookup, lookupLoop] at h
    split at h
    · cases h; exact ⟨_, rfl⟩
    · split at h
      · cases h; exact ⟨_, rfl⟩
      · split at h
        · cases h; exact ⟨_, rfl⟩
        · split at h
          · split at h
            · cases h
            · cases h; exact ⟨_, rfl⟩
          · split at h
            · cases h; exact ⟨_, rfl⟩
            · split at h
              · cases h
              · cases h; exact ⟨_, rfl⟩
              · split at h
                · split at h
                  · cases h
                  · cases h; exact ⟨_, rfl⟩
                · cases h; exact ⟨_, rfl⟩

/-- C8 witness: the amended theorem at the concrete oracle and query of the
counterexample: the completed run's trace indeed starts at the root hint. -/
theorem c8_witness :
    recursive_lookup c8Oracle 5 [97] .A = some (.ok netPacket, [([97], .A, rootHint)]) ∧
    ∃ rest, ((Except.ok netPacket : Except Err DNSPacket),
        [([97], QueryType.A, rootHint)]).2 = ([97], QueryType.A, rootHint) :: rest :=
  ⟨rfl, c8_engine_always_queries_root c8Oracle 5 [97] .A _ rfl⟩

/-- C9: on both the datagram and the stream path, the reply copies the
request id and RD flag, sets QR and RA, and: with no question the rcode is
FORMERR; with a question, an engine success contributes its rcode and its
three record sections (and the popped question), an engine error yields
SERVFAIL. -/
theorem c9_reply_construction (oracle : Oracle) (fuel : Nat) (req res : DNSPacket)
    (h : handle_request_udp oracle fuel req = some res ∨
         handle_connection_tcp oracle fuel req = some res) :
    res.header.id = req.header.id ∧
    res.header.recur_desired = req.header.recur_desired ∧
    res.header.query_response = true ∧
    res.header.recur_available = true ∧
    (req.questions = [] → res.header.res_code = .FORMERR) ∧
    (∀ question, req.questions.getLast? = some question →
      (∀ result tr,
          recursive_lookup oracle fuel question.name question.q_type =
            some (.ok result, tr) →
          res.header.res_code = result.header.res_code ∧
          res.answers = result.answers ∧
          res.authority = result.authority ∧
          res.addtional = result.addtional ∧
          res.questions = [question]) ∧
      (∀ e tr,
          recursive_lookup oracle fuel question.name question.q_type =
            some (.error e, tr) →
          res.header.res_code = .SERVFAIL)) := by
  have hcore : handle_request_core oracle fuel req = some res := by
    rcases h with h | h <;> exact h
  unfold handle_request_core at hcore
  rcases hql : req.questions.getLast? with _ | question <;> rw [hql] at hcore <;>
    simp only [Option.some.injEq] at hcore
  · subst hcore
    refine ⟨rfl, rfl, rfl, rfl, fun _ => rfl, ?_⟩
    intro question hq
    cases hq
  · rcases hrl : recursive_lookup oracle fuel question.name question.q_type
      with _ | ⟨r, tr⟩ <;> rw [hrl] at hcore
    · exact absurd hcore (by simp)
    · match r with
      | .ok result =>
        simp only [Option.some.injEq] at hcore
        subst hcore
        refine ⟨rfl, rfl, rfl, rfl, ?_, ?_⟩
        · intro he
          rw [he] at hql
          cases hql
        · intro question' hq'
          cases hq'
          constructor
          · intro result' tr' h'
            rw [hrl] at h'
            cases h'
            exact ⟨rfl, rfl, rfl, rfl, rfl⟩
          · intro e tr' h'
            rw [hrl] at h'
            cases h'
      | .error e =>
        simp only [Option.some.injEq] at hcore
        subst hcore
        refine ⟨rfl, rfl, rfl, rfl, ?_, ?_⟩
        · intro he
          rw [he] at hql
          cases hql
        · intro question' hq'
          cases hq'
          constructor
          · intro result' tr' h'
            rw [hrl] at h'
            cases h'
          · intro e' tr' h'
            rfl

/-- C9 witness: a request with no question yields the FORMERR reply on the
datagram path (with the id and RD of the request, QR and RA set). -/
theorem c9_witness :
    (handle_request_udp loopOracle 0 DNSPacket.new = some (formerrReplyFor DNSPacket.new) ∨
     handle_connection_tcp loopOracle 0 DNSPacket.new = some (formerrReplyFor DNSPacket.new)) ∧
    (formerrReplyFor DNSPacket.new).header.res_code = .FORMERR :=
  ⟨Or.inl rfl,
   (c9_reply_construction loopOracle 0 DNSPacket.new (formerrReplyFor DNSPacket.new)
     (Or.inl rfl)).2.2.2.2.1 rfl⟩

/-- C10: `VecBuffer::write` always succeeds, appends at the end of the
vector (index `buf.len()`), increments `pos` by one and leaves every
previously stored byte unchanged — including after `seek` has moved `pos`
backwards to an interior position `p`, where a subsequent `write` still
appends instead of overwriting the byte at `p`. -/
theorem c10_vecbuffer_write_appends (b : VecBuffer) (v : Nat) (p : Nat)
    (hp : p ≤ b.buf.length) :
    b.write v = .ok ⟨b.buf ++ [v], b.pos + 1⟩ ∧
    (b.buf ++ [v]).getD b.buf.length 0 = v ∧
    (∀ i, i < b.buf.length → (b.buf ++ [v]).getD i 0 = b.buf.getD i 0) ∧
    b.seek p = .ok ⟨b.buf, p⟩ ∧
    VecBuffer.write ⟨b.buf, p⟩ v = .ok ⟨b.buf ++ [v], p + 1⟩ := by
  refine ⟨rfl, ?_, ?_, ?_, rfl⟩
  · simp [List.getD_eq_getElem?_getD]
  · intro i hi
    simp [List.getD_eq_getElem?_getD, List.getElem?_append_left hi]
  · simp [VecBuffer.seek, Nat.not_lt.mpr hp]

/-- C5 (amended): of the three failure conditions the claim lists, only the
pointer-target bounds check is real: when the byte at the cursor is a
compression pointer whose 14-bit offset (with the next byte) is at or past
the end of the buffer, `read_qname` fails with the buffer-bounds error.
(The 255-byte total is not checked — see the counterexample — and there is
no hop cap — see C1.) -/
theorem c5_read_qname_pointer_oob (B : List Nat) (p fuel : Nat)
    (h1 : p < B.length)
    (h2 : B.getD p 0 &&& 0xC0 = 0xC0)
    (h3 : B.length ≤ ((B.getD p 0 ^^^ 0xC0) <<< 8) ||| B.getD (p + 1) 0)
    (hf : 2 ≤ fuel) :
    read_qname fuel ⟨B, p⟩ = some (.error .bufferOverflow) := by
  obtain ⟨f, rfl⟩ : ∃ f, fuel = f + 2 := ⟨fuel - 2, by omega⟩
  have hgo : read_qname_go B (f + 2) p p false false [] =
      some (.error .bufferOverflow) := by
    show read_qname_go B (f + 1 + 1) p p false false [] = _
    simp only [read_qname_go]
    rw [if_neg (Nat.not_le.mpr h1), if_pos h2]
    by_cases hseek : B.length < p + 2
    · rw [if_pos ⟨by trivial, hseek⟩]
    · rw [if_neg (fun hc => hseek hc.2), if_neg (by omega)]
      simp only [Bool.false_eq_true, if_false, read_qname_go]
      rw [if_pos h3]
  simp only [read_qname, hgo]

/-- C5 counterexample: a pointer-free name of five 63-byte labels (315 label
bytes, past the 255-byte limit the claim says is enforced) decodes
successfully — no `MalformedName` is raised for over-long names. -/
theorem c5_long_name_decodes :
    read_qname 6 ⟨longNameBuf, 0⟩ = some (.ok (longName, ⟨longNameBuf, 321⟩)) ∧
    255 < ((splitDot longName).map List.length).sum := by
  constructor
  · set_option maxRecDepth 100000 in rfl
  · set_option maxRecDepth 10000 in decide

/-- C5 witness: the amended theorem at the concrete buffer `[0xC0, 0x05]`,
whose pointer offset 5 is past the buffer end (length 2). -/
theorem c5_witness :
    ((0 : Nat) < [(192 : Nat), 5].length ∧
     [(192 : Nat), 5].getD 0 0 &&& 0xC0 = 0xC0 ∧
     [(192 : Nat), 5].length ≤
       (([(192 : Nat), 5].getD 0 0 ^^^ 0xC0) <<< 8) ||| [(192 : Nat), 5].getD 1 0 ∧
     (2 : Nat) ≤ 2) ∧
    read_qname 2 ⟨[192, 5], 0⟩ = some (.error .bufferOverflow) :=
  ⟨⟨by decide, by decide, by decide, by decide⟩,
   c5_read_qname_pointer_oob [192, 5] 0 2 (by decide) (by decide) (by decide) (by decide)⟩

/-- C6 counterexample: an A record whose rdlength field is 5 (not 4) decodes
successfully — no `MalformedRecord` (or any error) is raised on an rdlength
mismatch; the decoder simply reads four payload bytes. -/
theorem c6_mismatched_rdlength_decodes :
    DNSRecord.read 2 ⟨[0, 0, 1, 0, 1, 0, 0, 0, 60, 0, 5, 1, 2, 3, 4], 0⟩ =
      some (.ok (.A [] .A 1 60 5 16909060,
        ⟨[0, 0, 1, 0, 1, 0, 0, 0, 60, 0, 5, 1, 2, 3, 4], 15⟩)) ∧
    (5 : Nat) ≠ 4 := by
  exact ⟨rfl, by decide⟩

/-- C6 (amended): `DNSRecord::read` never consults the rdlength field in its
A and AAAA arms: for **any** rdlength value (every `len < 2^16` admitted by
`validRecord`, 4/16 or not), decoding the record's encoding succeeds and
returns the record with that rdlength preserved; the A arm always reads
exactly 4 payload bytes and the AAAA arm exactly 16. -/
theorem c6_rdlength_not_checked (name : List Nat) (cls ttl len addr : Nat)
    (seg : List Nat) (fuel : Nat)
    (hvA : validRecord (.A name .A cls ttl len addr) = true)
    (hvQ : validRecord (.AAAA name .AAAA cls ttl len seg) = true)
    (hfn : nameFuel name ≤ fuel) :
    DNSRecord.read fuel ⟨encRecord (.A name .A cls ttl len addr), 0⟩ =
      some (.ok (.A name .A cls ttl len addr,
        ⟨encRecord (.A name .A cls ttl len addr),
         (encRecord (.A name .A cls ttl len addr)).length⟩)) ∧
    DNSRecord.read fuel ⟨encRecord (.AAAA name .AAAA cls ttl len seg), 0⟩ =
      some (.ok (.AAAA name .AAAA cls ttl len seg,
        ⟨encRecord (.AAAA name .AAAA cls ttl len seg),
         (encRecord (.AAAA name .AAAA cls ttl len seg)).length⟩)) := by
  constructor
  · have hnm : ∀ nm ∈ recordNames (.A name .A cls ttl len addr), nameFuel nm ≤ fuel := by
      intro nm hm
      simp only [recordNames, List.mem_singleton] at hm
      subst hm
      exact hfn
    have R := readsToF_record (.A name .A cls ttl len addr) hvA fuel hnm
      (encRecord (.A name .A cls ttl len addr)) 0 (by simp) (by simp)
    simpa using R
  · have hnm : ∀ nm ∈ recordNames (.AAAA name .AAAA cls ttl len seg),
        nameFuel nm ≤ fuel := by
      intro nm hm
      simp only [recordNames, List.mem_singleton] at hm
      subst hm
      exact hfn
    have R := readsToF_record (.AAAA name .AAAA cls ttl len seg) hvQ fuel hnm
      (encRecord (.AAAA name .AAAA cls ttl len seg)) 0 (by simp) (by simp)
    simpa using R

/-- C6 witness: the amended theorem at a concrete A record with rdlength 5
and a concrete AAAA record with rdlength 5 (neither 4 nor 16). -/
theorem c6_witness :
    (validRecord (.A [97] .A 1 60 5 7) = true ∧
     validRecord (.AAAA [97] .AAAA 1 60 5 [0, 0, 0, 0, 0, 0, 0, 1]) = true ∧
     nameFuel [97] ≤ 3) ∧
    (DNSRecord.read 3 ⟨encRecord (.A [97] .A 1 60 5 7), 0⟩ =
       some (.ok (.A [97] .A 1 60 5 7,
         ⟨encRecord (.A [97] .A 1 60 5 7), (encRecord (.A [97] .A 1 60 5 7)).length⟩)) ∧
     DNSRecord.read 3 ⟨encRecord (.AAAA [97] .AAAA 1 60 5 [0, 0, 0, 0, 0, 0, 0, 1]), 0⟩ =
       some (.ok (.AAAA [97] .AAAA 1 60 5 [0, 0, 0, 0, 0, 0, 0, 1],
         ⟨encRecord (.AAAA [97] .AAAA 1 60 5 [0, 0, 0, 0, 0, 0, 0, 1]),
          (encRecord (.AAAA [97] .AAAA 1 60 5 [0, 0, 0, 0, 0, 0, 0, 1])).length⟩))) :=
  ⟨⟨by decide, by decide, by decide⟩,
   c6_rdlength_not_checked [97] 1 60 5 7 [0, 0, 0, 0, 0, 0, 0, 1] 3
     (by decide) (by decide) (by decide)⟩

/-- C7: after `set_records` for a key, a `get_records` on that key returns
(when it hits) a packet whose answer section is a subset of
answers ∪ authority ∪ additional of the stored message and whose other
sections are empty; and once the elapsed time is at least every stored
record's TTL, `get_records` misses.  `t ≤ now` reflects the source's
`duration_since(...).unwrap()`, which requires the cache instant to precede
the probe instant. -/
theorem c7_cache_set_get (c : DNSCache) (qname : List Nat) (qt : QueryType)
    (p : DNSPacket) (t now : Nat) (hnow : t ≤ now) :
    (∀ q, (c.set_records qname qt p t).get_records qname qt now = some q →
        (∀ r ∈ q.answers, r ∈ p.answers ++ p.authority ++ p.addtional) ∧
        q.questions = [] ∧ q.authority = [] ∧ q.addtional = []) ∧
    ((∀ r ∈ p.answers ++ p.authority ++ p.addtional,
        r.get_ttl * 1000000000 ≤ now - t) →
      (c.set_records qname qt p t).get_records qname qt now = none) := by
  constructor
  · intro q hq
    rw [get_records_after_set] at hq
    by_cases hlen : ((p.answers ++ p.authority ++ p.addtional).filter fun record =>
        decide (now - t < record.get_ttl * 1000000000)).length = 0
    · rw [if_pos hlen] at hq
      cases hq
    · rw [if_neg hlen] at hq
      cases hq
      refine ⟨?_, rfl, rfl, rfl⟩
      intro r hr
      exact (List.mem_filter.mp hr).1
  · intro hdead
    rw [get_records_after_set]
    have hnil : ((p.answers ++ p.authority ++ p.addtional).filter fun record =>
        decide (now - t < record.get_ttl * 1000000000)) = [] := by
      rw [List.filter_eq_nil_iff]
      intro r hr
      simpa using Nat.not_lt.mpr (hdead r hr)
    rw [hnil]
    simp

/-- C7 witness: the cache theorem at the empty cache, key ("a", A), the
one-record packet `cachedPacket`, cached and probed at instant 0. -/
theorem c7_witness :
    (0 : Nat) ≤ 0 ∧
    ((∀ q, (DNSCache.empty.set_records [97] .A cachedPacket 0).get_records [97] .A 0 =
          some q →
        (∀ r ∈ q.answers,
            r ∈ cachedPacket.answers ++ cachedPacket.authority ++ cachedPacket.addtional) ∧
        q.questions = [] ∧ q.authority = [] ∧ q.addtional = []) ∧
     ((∀ r ∈ cachedPacket.answers ++ cachedPacket.authority ++ cachedPacket.addtional,
          r.get_ttl * 1000000000 ≤ 0 - 0) →
       (DNSCache.empty.set_records [97] .A cachedPacket 0).get_records [97] .A 0 = none)) :=
  ⟨by decide, c7_cache_set_get DNSCache.empty [97] .A cachedPacket 0 0 (by decide)⟩

/-- C10 witness: the general statement instantiated at the concrete buffer
`⟨[5], 2⟩`, writing 9 after seeking to the interior position 1. -/
theorem c10_witness :
    (1 ≤ [(5 : Nat)].length) ∧
    (VecBuffer.write ⟨[5], 2⟩ 9 = .ok ⟨[5, 9], 3⟩ ∧
     ([(5 : Nat), 9]).getD 1 0 = 9 ∧
     (∀ i, i < [(5 : Nat)].length → ([(5 : Nat), 9]).getD i 0 = [(5 : Nat)].getD i 0) ∧
     VecBuffer.seek ⟨[5], 2⟩ 1 = .ok ⟨[5], 1⟩ ∧
     VecBuffer.write ⟨[5], 1⟩ 9 = .ok ⟨[5, 9], 2⟩) :=
  ⟨by decide, c10_vecbuffer_write_appends ⟨[5], 2⟩ 9 1 (by decide)⟩

end Diglett
